import Mathlib

/-!
Verification of the AODV protocol simulator engine (`aodv_simulator.py`).

This file gives a shallow embedding of the protocol engine of the simulator:
the `AnimatedPacket` hop-progression model, the per-node duplicate-suppression
record, and the `AODVSimulator` state machine (route-request flooding,
route-reply and data delivery, route-error handling, and the tick driver with
its concurrency cap of 5 active packets).

Modelling conventions:
* Python floats (packet progress, speeds, time deltas) become `ℚ`.
* `float('inf')` for the best hop count becomes `(⊤ : WithTop ℕ)`.
* Python `None` becomes `Option.none` (source, destination, from/to nodes).
* The `deque` packet queue becomes a `List` with its head at the queue front;
  `append` adds at the tail, `popleft` removes the head.
* Node objects are represented by a list indexed by node id (ids are dense
  `0..N-1` in the simulator); only the engine-relevant fields (`neighbors`,
  `rreq_seen`) are kept.  Presentation-only state (positions, colors, the
  event log, PCAP capture) is omitted, as the spec declares it out of scope.
* Randomness is factored out: the break index of `simulate_route_error`
  becomes an explicit argument, and the mobility step (random node drift and
  neighbor recomputation) becomes an explicit function argument `tickNodes`
  of the tick driver.
-/

/-- Packet kinds, from the `PacketType` enum. -/
inductive PacketType where
  | RREQ
  | RREP
  | DATA
  | RERR
deriving DecidableEq, Repr

/-- The in-flight packet model, from class `AnimatedPacket`.  The fields
`color`, `hop_count` and `timestamp` of the Python class are display-only
derived data and are omitted. -/
structure AnimatedPacket where
  id : ℕ
  ptype : PacketType
  path : List ℕ
  current_node_index : ℕ
  progress : ℚ
  base_speed : ℚ
  completed : Bool
  from_node : Option ℕ
  to_node : Option ℕ
deriving DecidableEq, Repr

instance : Inhabited AnimatedPacket :=
  ⟨⟨0, PacketType.RREQ, [], 0, 0, 0, false, none, none⟩⟩

/-- Constructor of `AnimatedPacket`: index 0, progress 0, not completed. -/
def mkAnimatedPacket (id : ℕ) (ptype : PacketType) (path : List ℕ)
    (base_speed : ℚ) (from_node to_node : Option ℕ) : AnimatedPacket :=
  ⟨id, ptype, path, 0, 0, base_speed, false, from_node, to_node⟩

/-- The method `AnimatedPacket.update(delta_time, speed_multiplier)`.  The
Python method mutates the packet and returns a boolean; here we return the
new packet together with that boolean.  Note that the boolean is `true` only
when the packet completes (reaches the last node of its path), not on every
hop arrival. -/
def AnimatedPacket.update (p : AnimatedPacket) (delta_time speed_multiplier : ℚ) :
    AnimatedPacket × Bool :=
  if p.completed then (p, false)
  else
    let progress := p.progress + p.base_speed * speed_multiplier * delta_time
    if 1 ≤ progress then
      let idx := p.current_node_index + 1
      if p.path.length - 1 ≤ idx then
        ({ p with current_node_index := idx, progress := 1, completed := true }, true)
      else
        ({ p with current_node_index := idx, progress := 0 }, false)
    else
      ({ p with progress := progress }, false)

/-- Iterated calls of `AnimatedPacket.update` with a fixed speed multiplier,
one call per element of `ds`; returns the final packet and the number of
calls that returned `true`. -/
def AnimatedPacket.run (m : ℚ) : List ℚ → AnimatedPacket → AnimatedPacket × ℕ
  | [], p => (p, 0)
  | d :: ds, p =>
    let r := p.update d m
    let rest := AnimatedPacket.run m ds r.1
    (rest.1, (if r.2 then 1 else 0) + rest.2)

/-- The engine-relevant state of class `Node`: the neighbor id list and the
`rreq_seen` set of (source, discovery-id) pairs.  The source component is an
`Option ℕ` because the Python code builds the key from `self.source`, which
is an optional value. -/
structure Node where
  neighbors : List ℕ
  rreq_seen : List (Option ℕ × ℕ)
deriving DecidableEq, Repr

instance : Inhabited Node := ⟨⟨[], []⟩⟩

/-- Look up the node with id `i` (the simulator keeps `nodes[i].id = i`).
Out-of-range access, which would raise in Python, yields the empty node. -/
def nodeAt (ns : List Node) (i : ℕ) : Node :=
  ns.getD i default

/-- Add a key to an `rreq_seen` set (Python `set.add`): a no-op when the key
is already present. -/
def addSeen (l : List (Option ℕ × ℕ)) (k : Option ℕ × ℕ) : List (Option ℕ × ℕ) :=
  if k ∈ l then l else l ++ [k]

/-- Record the key `k` in the `rreq_seen` set of node `i`. -/
def markSeen (ns : List Node) (i : ℕ) (k : Option ℕ × ℕ) : List Node :=
  ns.set i { nodeAt ns i with rreq_seen := addSeen (nodeAt ns i).rreq_seen k }

/-- The engine state of class `AODVSimulator`.  Presentation-only fields
(`event_log`, `pcap_packets`, `pcap_enabled`, `num_nodes`, node colors and
positions) are omitted. -/
structure AODVSimulator where
  nodes : List Node
  active_packets : List AnimatedPacket
  packet_queue : List AnimatedPacket
  source : Option ℕ
  destination : Option ℕ
  simulation_running : Bool
  simulation_complete : Bool
  packet_counter : ℕ
  final_path : List ℕ
  discovered_paths : List (List ℕ)
  all_discovered_paths_to_dest : List (List ℕ)
  animation_speed : ℚ
  rreq_broadcast_id : ℕ
  best_path_hop_count : WithTop ℕ
  route_established : Bool
  mobility_enabled : Bool

/-- One iteration of the seed loop of `start_rreq_flooding` for the neighbor
`nid` of the source: enqueue a fresh two-node RREQ `[source, neighbor]`,
record the path, and add the (source, discovery-id) key to the SOURCE node's
`rreq_seen` (the Python code marks `source_node.rreq_seen`, not the
neighbor's). -/
def seedStep (src : ℕ) (s : AODVSimulator) (nid : ℕ) : AODVSimulator :=
  { s with
    packet_queue := s.packet_queue ++
      [mkAnimatedPacket s.packet_counter PacketType.RREQ [src, nid] (4/5)
        (some src) (some nid)],
    packet_counter := s.packet_counter + 1,
    discovered_paths := s.discovered_paths ++ [[src, nid]],
    nodes := markSeen s.nodes src (s.source, s.rreq_broadcast_id) }

/-- The seed loop of `start_rreq_flooding` over the source's neighbor ids. -/
def seedLoop (src : ℕ) (ids : List ℕ) (st : AODVSimulator) : AODVSimulator :=
  ids.foldl (seedStep src) st

/-- The method `start_rreq_flooding`: issue a new discovery id from the
packet counter and seed one RREQ per neighbor of the source.  Both call
sites guard on the source being set; the `none` branch is unreachable there
(in Python it would raise on `self.nodes[None]`). -/
def start_rreq_flooding (st : AODVSimulator) : AODVSimulator :=
  match st.source with
  | none => st
  | some src =>
    let st1 := { st with rreq_broadcast_id := st.packet_counter,
                         packet_counter := st.packet_counter + 1 }
    seedLoop src (nodeAt st1.nodes src).neighbors st1

/-- The method `send_rrep_back(path)`: enqueue one RREP whose path is the
reverse of the discovered path. -/
def send_rrep_back (path : List ℕ) (st : AODVSimulator) : AODVSimulator :=
  { st with
    packet_queue := st.packet_queue ++
      [mkAnimatedPacket st.packet_counter PacketType.RREP path.reverse (4/5) none none],
    packet_counter := st.packet_counter + 1 }

/-- The method `send_data_packet`: enqueue one DATA packet along the current
best path. -/
def send_data_packet (st : AODVSimulator) : AODVSimulator :=
  { st with
    packet_queue := st.packet_queue ++
      [mkAnimatedPacket st.packet_counter PacketType.DATA st.final_path (4/5) none none],
    packet_counter := st.packet_counter + 1 }

/-- One iteration of the neighbor-forwarding loop of
`process_packet_completion` for a RREQ that completed at node `cur` with
path `pp`: when the neighbor id `nid` is not in the path and its `rreq_seen`
lacks the (source, discovery-id) key, enqueue a forwarded RREQ with the
extended path and mark the NEIGHBOR's record; otherwise skip it. -/
def forwardStep (cur : ℕ) (pp : List ℕ) (s : AODVSimulator) (nid : ℕ) :
    AODVSimulator :=
  if nid ∉ pp ∧ (s.source, s.rreq_broadcast_id) ∉ (nodeAt s.nodes nid).rreq_seen then
    { s with
      packet_queue := s.packet_queue ++
        [mkAnimatedPacket s.packet_counter PacketType.RREQ (pp ++ [nid]) (4/5)
          (some cur) (some nid)],
      packet_counter := s.packet_counter + 1,
      discovered_paths := s.discovered_paths ++ [pp ++ [nid]],
      nodes := markSeen s.nodes nid (s.source, s.rreq_broadcast_id) }
  else s

/-- The neighbor-forwarding loop over the arrival node's neighbor ids. -/
def forwardLoop (cur : ℕ) (pp : List ℕ) (ids : List ℕ) (st : AODVSimulator) :
    AODVSimulator :=
  ids.foldl (forwardStep cur pp) st

/-- The method `process_packet_completion(packet)`, branch by packet type:
RREQ arrival at the destination records the path, possibly updates the best
path and sends an RREP, and when 5 paths were found or the best hop count is
at most 2 it sets `route_established` and returns early (skipping the
forwarding loop); every other RREQ arrival runs the forwarding loop.  RREP at
the source sends the DATA packet; DATA at the destination completes the
simulation; RERR at the source restarts flooding. -/
def process_packet_completion (p : AnimatedPacket) (st : AODVSimulator) :
    AODVSimulator :=
  let current_node_id := p.path.getLastD 0
  match p.ptype with
  | PacketType.RREQ =>
    if some current_node_id = st.destination then
      let st1 := { st with all_discovered_paths_to_dest :=
                     st.all_discovered_paths_to_dest ++ [p.path] }
      let hop_count := p.path.length - 1
      let st2 :=
        if (hop_count : WithTop ℕ) < st1.best_path_hop_count then
          send_rrep_back p.path
            { st1 with best_path_hop_count := (hop_count : WithTop ℕ),
                       final_path := p.path }
        else st1
      if 5 ≤ st2.all_discovered_paths_to_dest.length ∨ st2.best_path_hop_count ≤ 2 then
        { st2 with route_established := true }
      else
        forwardLoop current_node_id p.path (nodeAt st2.nodes current_node_id).neighbors st2
    else
      forwardLoop current_node_id p.path (nodeAt st.nodes current_node_id).neighbors st
  | PacketType.RREP =>
    if some current_node_id = st.source then send_data_packet st else st
  | PacketType.DATA =>
    if some current_node_id = st.destination then
      { st with simulation_complete := true, simulation_running := false }
    else st
  | PacketType.RERR =>
    if some current_node_id = st.source then start_rreq_flooding st else st

/-- The method `reset_simulation`: clears all session and packet state and
every node's `rreq_seen`; keeps topology, source, destination, speed and
mobility setting. -/
def reset_simulation (st : AODVSimulator) : AODVSimulator :=
  { st with
    active_packets := [],
    packet_queue := [],
    simulation_running := false,
    simulation_complete := false,
    final_path := [],
    discovered_paths := [],
    all_discovered_paths_to_dest := [],
    best_path_hop_count := ⊤,
    route_established := false,
    packet_counter := 0,
    nodes := st.nodes.map (fun n => { n with rreq_seen := [] }) }

/-- The method `start_simulation`: a no-op when source or destination is
unset; otherwise reset, mark the simulation running, and start flooding. -/
def start_simulation (st : AODVSimulator) : AODVSimulator :=
  if st.source = none ∨ st.destination = none then st
  else
    start_rreq_flooding { reset_simulation st with simulation_running := true }

/-- The method `simulate_route_error` with the random break index made an
explicit argument (`random.randint(1, len(final_path) - 2)` picks it from
`{1, ..., len-2}`): a no-op unless an established path of at least 3 nodes
exists; otherwise enqueue one RERR whose two-node path is the broken link
`[final_path[i-1], final_path[i]]`. -/
def simulate_route_error (break_index : ℕ) (st : AODVSimulator) : AODVSimulator :=
  if st.final_path = [] ∨ st.final_path.length < 3 then st
  else
    let from_node := st.final_path.getD (break_index - 1) 0
    let to_node := st.final_path.getD break_index 0
    { st with
      packet_queue := st.packet_queue ++
        [mkAnimatedPacket st.packet_counter PacketType.RERR [from_node, to_node] (4/5)
          (some from_node) (some to_node)],
      packet_counter := st.packet_counter + 1 }

/-- The refill loop of `AODVSimulator.update`: while the queue is nonempty
and fewer than 5 packets are active, pop the queue front into the active
set.  Returns the remaining queue and the new active list. -/
def refillAux : List AnimatedPacket → List AnimatedPacket →
    List AnimatedPacket × List AnimatedPacket
  | [], act => ([], act)
  | q :: qs, act =>
    if act.length < 5 then refillAux qs (act ++ [q]) else (q :: qs, act)

/-- Apply the refill loop to the state. -/
def refillState (st : AODVSimulator) : AODVSimulator :=
  let r := refillAux st.packet_queue st.active_packets
  { st with packet_queue := r.1, active_packets := r.2 }

/-- Hand each completed packet to `process_packet_completion`, in completion
order. -/
def processList (ps : List AnimatedPacket) (st : AODVSimulator) : AODVSimulator :=
  ps.foldl (fun s p => process_packet_completion p s) st

/-- The body of one tick before the final drain check: optional mobility
step, advance all active packets, remove and process the completed ones, and
refill the active set from the queue.  The mobility step (random drift and
neighbor recomputation of `Node.update_position` / `Node.update_neighbors`)
is abstracted as the function argument `tickNodes`. -/
def tickCore (tickNodes : List Node → List Node) (delta_time : ℚ)
    (st : AODVSimulator) : AODVSimulator :=
  let st0 := if st.mobility_enabled then { st with nodes := tickNodes st.nodes } else st
  let stepped := st0.active_packets.map
    (fun p => p.update delta_time st0.animation_speed)
  let completed := (stepped.filter (fun r => r.2)).map (fun r => r.1)
  let st1 := { st0 with active_packets :=
    (stepped.filter (fun r => !r.2)).map (fun r => r.1) }
  refillState (processList completed st1)

/-- The final drain check of `AODVSimulator.update`: when the active set and
the queue are both empty while the simulation is still running, either send
a DATA packet along the best path (when one exists) or complete the session
with an empty final path. -/
def finalize (st : AODVSimulator) : AODVSimulator :=
  if st.active_packets = [] ∧ st.packet_queue = [] ∧ st.simulation_running then
    if st.final_path ≠ [] then send_data_packet st
    else { st with simulation_complete := true, simulation_running := false }
  else st

/-- The method `AODVSimulator.update(delta_time)`: a no-op unless the
simulation is running; otherwise one full tick. -/
def AODVSimulator.update (tickNodes : List Node → List Node) (delta_time : ℚ)
    (st : AODVSimulator) : AODVSimulator :=
  if st.simulation_running then finalize (tickCore tickNodes delta_time st) else st

/-- External commands fed to the engine by the (out-of-scope) presentation
layer, as in the spec's command interface: start a discovery, advance one
tick, trigger a route error (with the random break index made explicit), and
reset. -/
inductive Cmd where
  | start : Cmd
  | tick : ℚ → Cmd
  | rerr : ℕ → Cmd
  | reset : Cmd

/-- Dispatch one external command to the corresponding engine method. -/
def execCmd (tickNodes : List Node → List Node) : Cmd → AODVSimulator → AODVSimulator
  | Cmd.start, st => start_simulation st
  | Cmd.tick d, st => AODVSimulator.update tickNodes d st
  | Cmd.rerr i, st => simulate_route_error i st
  | Cmd.reset, st => reset_simulation st

/-- Run a list of external commands in order. -/
def execTrace (tickNodes : List Node → List Node) (cs : List Cmd)
    (st : AODVSimulator) : AODVSimulator :=
  cs.foldl (fun s c => execCmd tickNodes c s) st

/-- Topology well-formedness: no node lists itself among its neighbors.  The
simulator's `setup_nodes` and `update_neighbors` both skip the node itself,
so every topology the program builds satisfies this. -/
def NoSelfNbr (ns : List Node) : Prop :=
  ∀ i < ns.length, i ∉ (nodeAt ns i).neighbors

instance (ns : List Node) : Decidable (NoSelfNbr ns) := by
  unfold NoSelfNbr; infer_instance

/-- A fresh engine state over a given topology: no packets, nothing
discovered, best hop count infinite, animation speed 1. -/
def mkSim (nodes : List Node) (src dst : Option ℕ) : AODVSimulator :=
  ⟨nodes, [], [], src, dst, false, false, 0, [], [], [], 1, 0, ⊤, false, false⟩

/-- A three-node packet used to exercise `AnimatedPacket.update` across an
intermediate hop. -/
def samplePacket3 : AnimatedPacket :=
  mkAnimatedPacket 0 PacketType.RREQ [0, 1, 2] (4/5) none none

/-- Triangle topology 0-1, 0-2, 1-2 with an isolated node 3, source 0 and
destination 3: both of node 1's arrivals of the first flood are reachable. -/
def sampleTriangle : AODVSimulator :=
  mkSim [⟨[1, 2], []⟩, ⟨[0, 2], []⟩, ⟨[0, 1], []⟩, ⟨[], []⟩] (some 0) (some 3)

/-- The state of `sampleTriangle` right after `start_simulation`, with the
two seed packets moved out of the queue into flight (as the first tick's
refill does). -/
def sampleTriangleStarted : AODVSimulator :=
  { start_simulation sampleTriangle with
    packet_queue := [],
    active_packets := (start_simulation sampleTriangle).packet_queue }

/-- The first seed packet of `sampleTriangle`'s flood, `[0, 1]`, after it
has traversed its one segment and completed. -/
def sampleSeed01 : AnimatedPacket :=
  { mkAnimatedPacket 1 PacketType.RREQ [0, 1] (4/5) (some 0) (some 1) with
    current_node_index := 1, progress := 1, completed := true }

/-- An engine state with an established route `[0, 3, 5, 7]` from source 0
to destination 7 (the scenario of the spec's route-error test). -/
def sampleRouteErrorState : AODVSimulator :=
  { mkSim [⟨[3], []⟩, ⟨[], []⟩, ⟨[], []⟩, ⟨[0, 5], []⟩, ⟨[], []⟩, ⟨[3, 7], []⟩,
           ⟨[], []⟩, ⟨[5], []⟩] (some 0) (some 7) with
    final_path := [0, 3, 5, 7],
    best_path_hop_count := (3 : WithTop ℕ),
    simulation_running := true,
    packet_counter := 20 }

/-- The RERR packet `simulate_route_error` produces on
`sampleRouteErrorState` with break index 1, after completing its single
segment from node 0 to node 3. -/
def sampleRerrPacket1 : AnimatedPacket :=
  { mkAnimatedPacket 20 PacketType.RERR [0, 3] (4/5) (some 0) (some 3) with
    current_node_index := 1, progress := 1, completed := true }

/-- The RERR packet of break index 2, completed from node 3 to node 5. -/
def sampleRerrPacket2 : AnimatedPacket :=
  { mkAnimatedPacket 20 PacketType.RERR [3, 5] (4/5) (some 3) (some 5) with
    current_node_index := 1, progress := 1, completed := true }

/-- A reachable satisfied session: topology 0-1, 0-2, 1-3, 2-4, 4-5 with
source 0 and destination 3.  The flood found `[0, 1, 3]` (hop count 2, so
the session is satisfied) while the RREQ along `[0, 2, 4]` was still in
flight; this is the state just before that packet's completion is
processed. -/
def sampleSatisfied : AODVSimulator :=
  { mkSim [⟨[1, 2], [(some 0, 0)]⟩, ⟨[0, 3], []⟩, ⟨[0, 4], []⟩,
           ⟨[1], [(some 0, 0)]⟩, ⟨[2, 5], [(some 0, 0)]⟩, ⟨[4], []⟩]
      (some 0) (some 3) with
    simulation_running := true,
    packet_counter := 6,
    best_path_hop_count := (2 : WithTop ℕ),
    route_established := true,
    final_path := [0, 1, 3],
    discovered_paths := [[0, 1], [0, 2], [0, 1, 3], [0, 2, 4]],
    all_discovered_paths_to_dest := [[0, 1, 3]] }

/-- The in-flight RREQ along `[0, 2, 4]` of `sampleSatisfied`, completed at
node 4. -/
def sampleRreq024 : AnimatedPacket :=
  { mkAnimatedPacket 4 PacketType.RREQ [0, 2, 4] (4/5) (some 2) (some 4) with
    current_node_index := 2, progress := 1, completed := true }

/-- A RREQ of `sampleSatisfied`'s flood completed at the destination 3. -/
def sampleRreqAtDest : AnimatedPacket :=
  { mkAnimatedPacket 5 PacketType.RREQ [0, 2, 4, 3] (4/5) (some 4) (some 3) with
    current_node_index := 3, progress := 1, completed := true }

/-- A running state whose packets have fully drained with no path found. -/
def sampleDrainedNoPath : AODVSimulator :=
  { mkSim [⟨[1], []⟩, ⟨[0], []⟩, ⟨[], []⟩] (some 0) (some 2) with
    simulation_running := true,
    packet_counter := 3,
    discovered_paths := [[0, 1]],
    nodes := [⟨[1], [(some 0, 0)]⟩, ⟨[0], []⟩, ⟨[], []⟩] }

/-- A running state whose packets have drained after a route `[0, 1]` was
established. -/
def sampleDrainedWithPath : AODVSimulator :=
  { mkSim [⟨[1], []⟩, ⟨[0], []⟩] (some 0) (some 1) with
    simulation_running := true,
    packet_counter := 4,
    final_path := [0, 1],
    best_path_hop_count := (1 : WithTop ℕ),
    route_established := true,
    all_discovered_paths_to_dest := [[0, 1]],
    nodes := [⟨[1], [(some 0, 0)]⟩, ⟨[0], []⟩] }

/-- The DATA packet of `sampleDrainedWithPath`, completed at destination 1. -/
def sampleDataAtDest : AnimatedPacket :=
  { mkAnimatedPacket 4 PacketType.DATA [0, 1] (4/5) none none with
    current_node_index := 1, progress := 1, completed := true }

/-- A state with no source selected, for the `start_simulation` no-op. -/
def sampleNoSource : AODVSimulator :=
  { mkSim [⟨[1], []⟩, ⟨[0], []⟩] none (some 1) with
    packet_counter := 7, discovered_paths := [[0, 1]] }

/-- Fields that none of the inner queue-emitting operations of the engine
touch: they leave source, destination, the active set, the best path and the
run flags alone, never change any node's neighbor list or the node count,
only ever grow the `rreq_seen` records, and only ever append to the packet
queue. -/
def PreservesCore (s t : AODVSimulator) : Prop :=
  t.source = s.source ∧
  t.destination = s.destination ∧
  t.active_packets = s.active_packets ∧
  t.best_path_hop_count = s.best_path_hop_count ∧
  t.simulation_running = s.simulation_running ∧
  t.simulation_complete = s.simulation_complete ∧
  t.final_path = s.final_path ∧
  t.nodes.length = s.nodes.length ∧
  (∀ j, (nodeAt t.nodes j).neighbors = (nodeAt s.nodes j).neighbors) ∧
  (∀ j k, k ∈ (nodeAt s.nodes j).rreq_seen → k ∈ (nodeAt t.nodes j).rreq_seen) ∧
  (∀ q, q ∈ s.packet_queue → q ∈ t.packet_queue)

/-- The loop-freedom invariant of claim C5: every live ROUTE_REQUEST packet
and every recorded discovered path (the `discovered_paths` log receives the
path of every RREQ ever created, seed or forwarded) is free of duplicate
node ids. -/
def RreqPathsNodup (st : AODVSimulator) : Prop :=
  (∀ q ∈ st.active_packets ++ st.packet_queue,
      q.ptype = PacketType.RREQ → q.path.Nodup) ∧
  (∀ pa ∈ st.discovered_paths, List.Nodup pa)

/-! Lemmas about the packet motion model. -/

theorem update_of_completed (p : AnimatedPacket) (d m : ℚ) (h : p.completed = true) :
    p.update d m = (p, false) := by
  simp [AnimatedPacket.update, h]

theorem update_snd_eq (p : AnimatedPacket) (d m : ℚ) :
    (p.update d m).2 = (!p.completed && (p.update d m).1.completed) := by
  unfold AnimatedPacket.update
  by_cases hc : p.completed
  · simp [hc]
  · simp only [hc, Bool.not_false, Bool.true_and, if_false, Bool.false_eq_true]
    split
    · split <;> simp
    · simp [hc]

theorem update_fst_completed (p : AnimatedPacket) (d m : ℚ)
    (h : (p.update d m).1.completed = false) : p.completed = false := by
  by_cases hc : p.completed
  · rw [update_of_completed p d m hc] at h; simp_all
  · simpa using hc

theorem run_of_completed (m : ℚ) (ds : List ℚ) (p : AnimatedPacket)
    (h : p.completed = true) : AnimatedPacket.run m ds p = (p, 0) := by
  induction ds with
  | nil => rfl
  | cons d ds ih => simp [AnimatedPacket.run, update_of_completed p d m h, ih]

theorem run_count (m : ℚ) (ds : List ℚ) (p : AnimatedPacket)
    (h : p.completed = false) :
    (AnimatedPacket.run m ds p).2 =
      if (AnimatedPacket.run m ds p).1.completed then 1 else 0 := by
  induction ds generalizing p with
  | nil => simp [AnimatedPacket.run, h]
  | cons d ds ih =>
    have hs := update_snd_eq p d m
    by_cases hb : (p.update d m).2
    · have hc : (p.update d m).1.completed = true := by
        rw [hb] at hs; simp [h] at hs; exact hs
      simp only [AnimatedPacket.run]
      have hrest := run_of_completed m ds ((p.update d m).1) hc
      simp [hrest, hb, hc]
    · have hc : (p.update d m).1.completed = false := by
        simp only [Bool.not_eq_true] at hb
        rw [hb, h] at hs
        simpa using hs.symm
      simp only [AnimatedPacket.run]
      rw [ih _ hc]
      simp [hb]

/-! Lemmas about node records. -/

theorem addSeen_self (l : List (Option ℕ × ℕ)) (k : Option ℕ × ℕ) :
    k ∈ addSeen l k := by
  unfold addSeen; split <;> simp_all

theorem addSeen_mono (l : List (Option ℕ × ℕ)) (k k' : Option ℕ × ℕ)
    (h : k' ∈ l) : k' ∈ addSeen l k := by
  unfold addSeen; split <;> simp_all

theorem markSeen_length (ns : List Node) (i : ℕ) (k : Option ℕ × ℕ) :
    (markSeen ns i k).length = ns.length := by
  unfold markSeen; simp

theorem nodeAt_lt (ns : List Node) (j : ℕ) (h : j < ns.length) :
    nodeAt ns j = ns[j] := by
  unfold nodeAt
  simp [List.getD_eq_getElem?_getD, List.getElem?_eq_getElem h]

theorem nodeAt_markSeen (ns : List Node) (i : ℕ) (k : Option ℕ × ℕ) (j : ℕ) :
    nodeAt (markSeen ns i k) j =
      if j = i ∧ i < ns.length then
        { nodeAt ns i with rreq_seen := addSeen (nodeAt ns i).rreq_seen k }
      else nodeAt ns j := by
  unfold nodeAt markSeen
  rcases eq_or_ne j i with h | h
  · subst h
    by_cases hl : j < ns.length
    · simp [List.getD_eq_getElem?_getD, List.getElem?_set, hl,
        List.getElem?_eq_getElem]
      rw [nodeAt_lt ns j hl]
      exact ⟨rfl, rfl⟩
    · simp [List.getD_eq_getElem?_getD, List.getElem?_set, hl,
        List.getElem?_eq_none (Nat.le_of_not_lt hl)]
  · simp [List.getD_eq_getElem?_getD, List.getElem?_set, h, Ne.symm h]

theorem nodeAt_markSeen_neighbors (ns : List Node) (i : ℕ) (k : Option ℕ × ℕ)
    (j : ℕ) :
    (nodeAt (markSeen ns i k) j).neighbors = (nodeAt ns j).neighbors := by
  rw [nodeAt_markSeen]
  split
  · rename_i hj; rw [hj.1]
  · rfl

theorem nodeAt_markSeen_mono (ns : List Node) (i : ℕ) (k k' : Option ℕ × ℕ)
    (j : ℕ) (h : k' ∈ (nodeAt ns j).rreq_seen) :
    k' ∈ (nodeAt (markSeen ns i k) j).rreq_seen := by
  rw [nodeAt_markSeen]
  split
  · rename_i hj; rw [hj.1] at h; exact addSeen_mono _ _ _ h
  · exact h

theorem markSeen_self (ns : List Node) (i : ℕ) (k : Option ℕ × ℕ)
    (h : i < ns.length) : k ∈ (nodeAt (markSeen ns i k) i).rreq_seen := by
  rw [nodeAt_markSeen]
  simp only [h, and_true, if_pos rfl]
  exact addSeen_self _ _

/-! Preservation lemmas for the queue-emitting inner operations. -/

theorem preservesCore_refl (s : AODVSimulator) : PreservesCore s s := by
  unfold PreservesCore
  refine ⟨rfl, rfl, rfl, rfl, rfl, rfl, rfl, rfl, fun j => rfl, fun j k h => h,
    fun q h => h⟩

theorem preservesCore_trans {a b c : AODVSimulator} (h1 : PreservesCore a b)
    (h2 : PreservesCore b c) : PreservesCore a c := by
  obtain ⟨s1, d1, a1, b1, r1, c1, f1, l1, n1, m1, q1⟩ := h1
  obtain ⟨s2, d2, a2, b2, r2, c2, f2, l2, n2, m2, q2⟩ := h2
  exact ⟨s2.trans s1, d2.trans d1, a2.trans a1, b2.trans b1, r2.trans r1,
    c2.trans c1, f2.trans f1, l2.trans l1,
    fun j => (n2 j).trans (n1 j),
    fun j k h => m2 j k (m1 j k h),
    fun q h => q2 q (q1 q h)⟩

theorem seedStep_core (src : ℕ) (s : AODVSimulator) (nid : ℕ) :
    PreservesCore s (seedStep src s nid) := by
  unfold PreservesCore seedStep
  refine ⟨rfl, rfl, rfl, rfl, rfl, rfl, rfl, markSeen_length _ _ _,
    fun j => nodeAt_markSeen_neighbors _ _ _ _,
    fun j k h => nodeAt_markSeen_mono _ _ _ _ _ h,
    fun q h => List.mem_append_left _ h⟩

theorem forwardStep_core (cur : ℕ) (pp : List ℕ) (s : AODVSimulator) (nid : ℕ) :
    PreservesCore s (forwardStep cur pp s nid) := by
  unfold forwardStep
  split
  · unfold PreservesCore
    refine ⟨rfl, rfl, rfl, rfl, rfl, rfl, rfl, markSeen_length _ _ _,
      fun j => nodeAt_markSeen_neighbors _ _ _ _,
      fun j k h => nodeAt_markSeen_mono _ _ _ _ _ h,
      fun q h => List.mem_append_left _ h⟩
  · exact preservesCore_refl s

theorem foldl_core {f : AODVSimulator → ℕ → AODVSimulator}
    (hf : ∀ s n, PreservesCore s (f s n)) (ids : List ℕ) (st : AODVSimulator) :
    PreservesCore st (ids.foldl f st) := by
  induction ids generalizing st with
  | nil => exact preservesCore_refl st
  | cons n ids ih =>
    exact preservesCore_trans (hf st n) (ih (f st n))

theorem seedLoop_core (src : ℕ) (ids : List ℕ) (st : AODVSimulator) :
    PreservesCore st (seedLoop src ids st) :=
  foldl_core (seedStep_core src) ids st

theorem forwardLoop_core (cur : ℕ) (pp : List ℕ) (ids : List ℕ)
    (st : AODVSimulator) : PreservesCore st (forwardLoop cur pp ids st) :=
  foldl_core (forwardStep_core cur pp) ids st

theorem send_rrep_back_core (path : List ℕ) (st : AODVSimulator) :
    PreservesCore st (send_rrep_back path st) := by
  unfold PreservesCore send_rrep_back
  refine ⟨rfl, rfl, rfl, rfl, rfl, rfl, rfl, rfl, fun j => rfl, fun j k h => h,
    fun q h => List.mem_append_left _ h⟩

theorem send_data_packet_core (st : AODVSimulator) :
    PreservesCore st (send_data_packet st) := by
  unfold PreservesCore send_data_packet
  refine ⟨rfl, rfl, rfl, rfl, rfl, rfl, rfl, rfl, fun j => rfl, fun j k h => h,
    fun q h => List.mem_append_left _ h⟩

theorem preservesCore_counter (st : AODVSimulator) (bid pc : ℕ) :
    PreservesCore st { st with rreq_broadcast_id := bid, packet_counter := pc } := by
  unfold PreservesCore
  exact ⟨rfl, rfl, rfl, rfl, rfl, rfl, rfl, rfl, fun j => rfl, fun j k h => h,
    fun q h => h⟩

theorem start_rreq_flooding_core (st : AODVSimulator) :
    PreservesCore st (start_rreq_flooding st) := by
  unfold start_rreq_flooding
  split
  · exact preservesCore_refl st
  · exact preservesCore_trans
      (preservesCore_counter st st.packet_counter (st.packet_counter + 1))
      (seedLoop_core _ _ _)

/-! Unfolding equations and characterizations of the two spawn loops. -/

theorem forwardLoop_cons (cur : ℕ) (pp : List ℕ) (n : ℕ) (ids : List ℕ)
    (st : AODVSimulator) :
    forwardLoop cur pp (n :: ids) st = forwardLoop cur pp ids (forwardStep cur pp st n) :=
  rfl

theorem seedLoop_cons (src n : ℕ) (ids : List ℕ) (st : AODVSimulator) :
    seedLoop src (n :: ids) st = seedLoop src ids (seedStep src st n) :=
  rfl

theorem forwardStep_bid (cur : ℕ) (pp : List ℕ) (s : AODVSimulator) (nid : ℕ) :
    (forwardStep cur pp s nid).rreq_broadcast_id = s.rreq_broadcast_id := by
  unfold forwardStep; split <;> rfl

theorem seedStep_bid (src : ℕ) (s : AODVSimulator) (nid : ℕ) :
    (seedStep src s nid).rreq_broadcast_id = s.rreq_broadcast_id :=
  rfl

theorem forwardLoop_bid (cur : ℕ) (pp : List ℕ) (ids : List ℕ) (st : AODVSimulator) :
    (forwardLoop cur pp ids st).rreq_broadcast_id = st.rreq_broadcast_id := by
  induction ids generalizing st with
  | nil => rfl
  | cons n ids ih =>
    rw [forwardLoop_cons, ih, forwardStep_bid]

theorem seedLoop_bid (src : ℕ) (ids : List ℕ) (st : AODVSimulator) :
    (seedLoop src ids st).rreq_broadcast_id = st.rreq_broadcast_id := by
  induction ids generalizing st with
  | nil => rfl
  | cons n ids ih =>
    rw [seedLoop_cons, ih, seedStep_bid]

theorem forwardLoop_new (cur : ℕ) (pp : List ℕ) (ids : List ℕ) (st : AODVSimulator) :
    (∀ q ∈ (forwardLoop cur pp ids st).packet_queue,
       q ∈ st.packet_queue ∨
       ∃ nid, q.to_node = some nid ∧ q.ptype = PacketType.RREQ ∧
         q.path = pp ++ [nid] ∧ nid ∉ pp ∧
         (st.source, st.rreq_broadcast_id) ∉ (nodeAt st.nodes nid).rreq_seen) ∧
    (∀ pa ∈ (forwardLoop cur pp ids st).discovered_paths,
       pa ∈ st.discovered_paths ∨ ∃ nid, pa = pp ++ [nid] ∧ nid ∉ pp) := by
  induction ids generalizing st with
  | nil => exact ⟨fun q hq => Or.inl hq, fun pa hpa => Or.inl hpa⟩
  | cons n ids ih =>
    rw [forwardLoop_cons]
    obtain ⟨hsrc, _, _, _, _, _, _, _, _, hmono, _⟩ :=
      forwardStep_core cur pp st n
    have hbid := forwardStep_bid cur pp st n
    refine ⟨fun q hq => ?_, fun pa hpa => ?_⟩
    · rcases (ih (forwardStep cur pp st n)).1 q hq with hold | ⟨nid, ht, hty, hpath, hnp, hns⟩
      · revert hold
        unfold forwardStep
        split
        · rename_i hcond
          intro hold
          rcases List.mem_append.1 hold with h | h
          · exact Or.inl h
          · simp only [List.mem_singleton] at h
            subst h
            exact Or.inr ⟨n, rfl, rfl, rfl, hcond.1, hcond.2⟩
        · intro hold; exact Or.inl hold
      · refine Or.inr ⟨nid, ht, hty, hpath, hnp, fun hmem => hns ?_⟩
        rw [hsrc, hbid]
        exact hmono nid _ hmem
    · rcases (ih (forwardStep cur pp st n)).2 pa hpa with hold | hnew
      · revert hold
        unfold forwardStep
        split
        · rename_i hcond
          intro hold
          rcases List.mem_append.1 hold with h | h
          · exact Or.inl h
          · simp only [List.mem_singleton] at h
            exact Or.inr ⟨n, h, hcond.1⟩
        · intro hold; exact Or.inl hold
      · exact Or.inr hnew

theorem seedLoop_new (src : ℕ) (ids : List ℕ) (st : AODVSimulator) :
    (∀ q ∈ (seedLoop src ids st).packet_queue,
       q ∈ st.packet_queue ∨
       ∃ nid ∈ ids, q.ptype = PacketType.RREQ ∧ q.path = [src, nid] ∧
         q.to_node = some nid) ∧
    (∀ pa ∈ (seedLoop src ids st).discovered_paths,
       pa ∈ st.discovered_paths ∨ ∃ nid ∈ ids, pa = [src, nid]) := by
  induction ids generalizing st with
  | nil => exact ⟨fun q hq => Or.inl hq, fun pa hpa => Or.inl hpa⟩
  | cons n ids ih =>
    rw [seedLoop_cons]
    refine ⟨fun q hq => ?_, fun pa hpa => ?_⟩
    · rcases (ih (seedStep src st n)).1 q hq with hold | ⟨nid, hmem, hrest⟩
      · rcases List.mem_append.1 hold with h | h
        · exact Or.inl h
        · simp only [List.mem_singleton] at h
          subst h
          exact Or.inr ⟨n, List.mem_cons_self n ids, rfl, rfl, rfl⟩
      · exact Or.inr ⟨nid, List.mem_cons_of_mem n hmem, hrest⟩
    · rcases (ih (seedStep src st n)).2 pa hpa with hold | ⟨nid, hmem, hrest⟩
      · rcases List.mem_append.1 hold with h | h
        · exact Or.inl h
        · simp only [List.mem_singleton] at h
          exact Or.inr ⟨n, List.mem_cons_self n ids, h⟩
      · exact Or.inr ⟨nid, List.mem_cons_of_mem n hmem, hrest⟩

theorem forwardLoop_marks (cur : ℕ) (pp : List ℕ) (ids : List ℕ)
    (st : AODVSimulator) (hids : ∀ nid ∈ ids, nid < st.nodes.length) :
    ∀ q ∈ (forwardLoop cur pp ids st).packet_queue, q ∉ st.packet_queue →
      ∀ nid, q.to_node = some nid →
        (st.source, st.rreq_broadcast_id) ∈
          (nodeAt (forwardLoop cur pp ids st).nodes nid).rreq_seen := by
  induction ids generalizing st with
  | nil =>
    intro q hq hnq
    exact absurd hq hnq
  | cons n ids ih =>
    intro q hq hnq nid ht
    rw [forwardLoop_cons] at hq ⊢
    obtain ⟨hsrc, _, _, _, _, _, _, hlen, _, hmono, _⟩ :=
      forwardStep_core cur pp st n
    have hbid := forwardStep_bid cur pp st n
    have hids' : ∀ m ∈ ids, m < (forwardStep cur pp st n).nodes.length := by
      intro m hm; rw [hlen]; exact hids m (List.mem_cons_of_mem n hm)
    by_cases hq' : q ∈ (forwardStep cur pp st n).packet_queue
    · -- q was emitted by this very step (it is not in the original queue)
      obtain ⟨_, _, _, _, _, _, _, _, _, hmono2, _⟩ :=
        forwardLoop_core cur pp ids (forwardStep cur pp st n)
      refine hmono2 nid _ ?_
      revert hq'
      unfold forwardStep
      split
      · intro hq'
        rcases List.mem_append.1 hq' with h | h
        · exact absurd h hnq
        · simp only [List.mem_singleton] at h
          subst h
          simp only [mkAnimatedPacket, Option.some.injEq] at ht
          subst ht
          exact markSeen_self st.nodes n _ (hids n (List.mem_cons_self n ids))
      · intro hq'
        exact absurd hq' hnq
    · have := ih (forwardStep cur pp st n) hids' q hq hq' nid ht
      rw [hsrc, hbid] at this
      exact this

/-! Projections of `PreservesCore`. -/

theorem pc_source {s t : AODVSimulator} (h : PreservesCore s t) :
    t.source = s.source := h.1

theorem pc_dest {s t : AODVSimulator} (h : PreservesCore s t) :
    t.destination = s.destination := h.2.1

theorem pc_active {s t : AODVSimulator} (h : PreservesCore s t) :
    t.active_packets = s.active_packets := h.2.2.1

theorem pc_best {s t : AODVSimulator} (h : PreservesCore s t) :
    t.best_path_hop_count = s.best_path_hop_count := h.2.2.2.1

theorem pc_running {s t : AODVSimulator} (h : PreservesCore s t) :
    t.simulation_running = s.simulation_running := h.2.2.2.2.1

theorem pc_complete {s t : AODVSimulator} (h : PreservesCore s t) :
    t.simulation_complete = s.simulation_complete := h.2.2.2.2.2.1

theorem pc_final {s t : AODVSimulator} (h : PreservesCore s t) :
    t.final_path = s.final_path := h.2.2.2.2.2.2.1

theorem pc_len {s t : AODVSimulator} (h : PreservesCore s t) :
    t.nodes.length = s.nodes.length := h.2.2.2.2.2.2.2.1

theorem pc_nbrs {s t : AODVSimulator} (h : PreservesCore s t) :
    ∀ j, (nodeAt t.nodes j).neighbors = (nodeAt s.nodes j).neighbors :=
  h.2.2.2.2.2.2.2.2.1

theorem pc_seen {s t : AODVSimulator} (h : PreservesCore s t) :
    ∀ j k, k ∈ (nodeAt s.nodes j).rreq_seen → k ∈ (nodeAt t.nodes j).rreq_seen :=
  h.2.2.2.2.2.2.2.2.2.1

theorem pc_queue {s t : AODVSimulator} (h : PreservesCore s t) :
    ∀ q, q ∈ s.packet_queue → q ∈ t.packet_queue :=
  h.2.2.2.2.2.2.2.2.2.2

/-- Master branch-analysis lemma for `process_packet_completion`: it never
touches the active set, source or destination; the best hop count either
stays or strictly drops; neighbor lists and the node count are untouched;
and the run/complete flags change only when a DATA packet completes at the
destination. -/
theorem process_core (p : AnimatedPacket) (st : AODVSimulator) :
    (process_packet_completion p st).active_packets = st.active_packets ∧
    (process_packet_completion p st).source = st.source ∧
    (process_packet_completion p st).destination = st.destination ∧
    ((process_packet_completion p st).best_path_hop_count = st.best_path_hop_count ∨
      (process_packet_completion p st).best_path_hop_count < st.best_path_hop_count) ∧
    (process_packet_completion p st).nodes.length = st.nodes.length ∧
    (∀ j, (nodeAt (process_packet_completion p st).nodes j).neighbors =
      (nodeAt st.nodes j).neighbors) ∧
    (¬(p.ptype = PacketType.DATA ∧ some (p.path.getLastD 0) = st.destination) →
      (process_packet_completion p st).simulation_complete = st.simulation_complete ∧
      (process_packet_completion p st).simulation_running = st.simulation_running) := by
  unfold process_packet_completion
  split
  · -- RREQ
    rename_i hty
    dsimp only
    split
    · -- completed at the destination
      split
      · -- strictly better path: best hop count drops
        rename_i hlt
        split
        · -- satisfied: early return
          refine ⟨rfl, rfl, rfl, Or.inr hlt, rfl, fun j => rfl, fun h => ⟨rfl, rfl⟩⟩
        · -- forwarding loop
          have hc := forwardLoop_core (p.path.getLastD 0) p.path
            (nodeAt (send_rrep_back p.path
              { st with
                all_discovered_paths_to_dest :=
                  st.all_discovered_paths_to_dest ++ [p.path],
                final_path := p.path,
                best_path_hop_count := ((p.path.length - 1 : ℕ) : WithTop ℕ) }).nodes
              (p.path.getLastD 0)).neighbors
            (send_rrep_back p.path
              { st with
                all_discovered_paths_to_dest :=
                  st.all_discovered_paths_to_dest ++ [p.path],
                final_path := p.path,
                best_path_hop_count := ((p.path.length - 1 : ℕ) : WithTop ℕ) })
          exact ⟨(pc_active hc).trans rfl, (pc_source hc).trans rfl,
            (pc_dest hc).trans rfl,
            Or.inr (lt_of_eq_of_lt (pc_best hc) hlt),
            (pc_len hc).trans rfl, fun j => (pc_nbrs hc j).trans rfl,
            fun h => ⟨(pc_complete hc).trans rfl, (pc_running hc).trans rfl⟩⟩
      · -- no better path
        split
        · refine ⟨rfl, rfl, rfl, Or.inl rfl, rfl, fun j => rfl, fun h => ⟨rfl, rfl⟩⟩
        · have hc := forwardLoop_core (p.path.getLastD 0) p.path
            (nodeAt ({ st with
              all_discovered_paths_to_dest :=
                st.all_discovered_paths_to_dest ++ [p.path] } : AODVSimulator).nodes
              (p.path.getLastD 0)).neighbors
            { st with
              all_discovered_paths_to_dest :=
                st.all_discovered_paths_to_dest ++ [p.path] }
          exact ⟨(pc_active hc).trans rfl, (pc_source hc).trans rfl,
            (pc_dest hc).trans rfl, Or.inl ((pc_best hc).trans rfl),
            (pc_len hc).trans rfl, fun j => (pc_nbrs hc j).trans rfl,
            fun h => ⟨(pc_complete hc).trans rfl, (pc_running hc).trans rfl⟩⟩
    · -- not at the destination
      have hc := forwardLoop_core (p.path.getLastD 0) p.path
        (nodeAt st.nodes (p.path.getLastD 0)).neighbors st
      exact ⟨pc_active hc, pc_source hc, pc_dest hc, Or.inl (pc_best hc),
        pc_len hc, pc_nbrs hc, fun h => ⟨pc_complete hc, pc_running hc⟩⟩
  · -- RREP
    dsimp only
    split
    · have hc := send_data_packet_core st
      exact ⟨pc_active hc, pc_source hc, pc_dest hc, Or.inl (pc_best hc),
        pc_len hc, pc_nbrs hc, fun h => ⟨pc_complete hc, pc_running hc⟩⟩
    · exact ⟨rfl, rfl, rfl, Or.inl rfl, rfl, fun j => rfl, fun h => ⟨rfl, rfl⟩⟩
  · -- DATA
    rename_i hty
    dsimp only
    split
    · rename_i hdest
      refine ⟨rfl, rfl, rfl, Or.inl rfl, rfl, fun j => rfl, fun h => ?_⟩
      exact absurd ⟨hty, hdest⟩ h
    · exact ⟨rfl, rfl, rfl, Or.inl rfl, rfl, fun j => rfl, fun h => ⟨rfl, rfl⟩⟩
  · -- RERR
    dsimp only
    split
    · have hc := start_rreq_flooding_core st
      exact ⟨pc_active hc, pc_source hc, pc_dest hc, Or.inl (pc_best hc),
        pc_len hc, pc_nbrs hc, fun h => ⟨pc_complete hc, pc_running hc⟩⟩
    · exact ⟨rfl, rfl, rfl, Or.inl rfl, rfl, fun j => rfl, fun h => ⟨rfl, rfl⟩⟩

/-! Topology well-formedness and loop-freedom helper lemmas. -/

theorem noSelfNbr_all {ns : List Node} (h : NoSelfNbr ns) :
    ∀ i, i ∉ (nodeAt ns i).neighbors := by
  intro i
  by_cases hl : i < ns.length
  · exact h i hl
  · unfold nodeAt
    rw [List.getD_eq_getElem?_getD, List.getElem?_eq_none (Nat.le_of_not_lt hl)]
    simp [default]

theorem noSelfNbr_of_eq {ns ms : List Node} (h : NoSelfNbr ns)
    (hn : ∀ j, (nodeAt ms j).neighbors = (nodeAt ns j).neighbors) :
    NoSelfNbr ms := by
  intro i hi
  rw [hn i]
  exact noSelfNbr_all h i

theorem nodup_snoc {l : List ℕ} {a : ℕ} (h : l.Nodup) (ha : a ∉ l) :
    (l ++ [a]).Nodup := by
  simp [List.nodup_append, h]
  exact ha

theorem flooding_queue_seed (st : AODVSimulator) :
    (∀ q ∈ (start_rreq_flooding st).packet_queue, q ∈ st.packet_queue ∨
      ∃ src nid, st.source = some src ∧ nid ∈ (nodeAt st.nodes src).neighbors ∧
        q.ptype = PacketType.RREQ ∧ q.path = [src, nid] ∧ q.to_node = some nid) ∧
    (∀ pa ∈ (start_rreq_flooding st).discovered_paths, pa ∈ st.discovered_paths ∨
      ∃ src nid, st.source = some src ∧ nid ∈ (nodeAt st.nodes src).neighbors ∧
        pa = [src, nid]) := by
  unfold start_rreq_flooding
  split
  · exact ⟨fun q hq => Or.inl hq, fun pa hpa => Or.inl hpa⟩
  · rename_i src heq
    constructor
    · intro q hq
      rcases (seedLoop_new src _ _).1 q hq with hold | ⟨nid, hmem, h1, h2, h3⟩
      · exact Or.inl hold
      · exact Or.inr ⟨src, nid, heq, hmem, h1, h2, h3⟩
    · intro pa hpa
      rcases (seedLoop_new src _ _).2 pa hpa with hold | ⟨nid, hmem, h1⟩
      · exact Or.inl hold
      · exact Or.inr ⟨src, nid, heq, hmem, h1⟩

theorem seed_path_nodup {ns : List Node} (hNS : NoSelfNbr ns) {src nid : ℕ}
    (hmem : nid ∈ (nodeAt ns src).neighbors) : List.Nodup [src, nid] := by
  have hne : nid ≠ src := by
    intro h; subst h
    exact noSelfNbr_all hNS nid hmem
  simp [hne.symm]

/-- Loop-freedom transfer through one packet completion: any packet newly
queued by `process_packet_completion` is either an RREP or DATA packet (for
which the RREQ loop-freedom claim is vacuous) or an RREQ whose path has no
duplicates, and every newly recorded discovered path has no duplicates. -/
theorem process_queue_nodup (p : AnimatedPacket) (st : AODVSimulator)
    (hNS : NoSelfNbr st.nodes)
    (hp : p.ptype = PacketType.RREQ → p.path.Nodup) :
    (∀ q ∈ (process_packet_completion p st).packet_queue,
       q ∈ st.packet_queue ∨ (q.ptype = PacketType.RREQ → q.path.Nodup)) ∧
    (∀ pa ∈ (process_packet_completion p st).discovered_paths,
       pa ∈ st.discovered_paths ∨ List.Nodup pa) := by
  unfold process_packet_completion
  split
  · -- RREQ
    rename_i hty
    have hpn : p.path.Nodup := hp hty
    dsimp only
    split
    · -- completed at the destination
      split
      · -- strictly better path, RREP queued
        split
        · -- satisfied: early return, queue grew only by the RREP
          constructor
          · intro q hq
            rcases List.mem_append.1 hq with h | h
            · exact Or.inl h
            · simp only [List.mem_singleton] at h
              subst h
              exact Or.inr (fun hr => by simp [mkAnimatedPacket] at hr)
          · intro pa hpa
            exact Or.inl hpa
        · -- forwarding loop after the RREP
          constructor
          · intro q hq
            rcases (forwardLoop_new _ _ _ _).1 q hq with hold |
              ⟨nid, ht, hqty, hpath, hnp, hns⟩
            · rcases List.mem_append.1 hold with h | h
              · exact Or.inl h
              · simp only [List.mem_singleton] at h
                subst h
                exact Or.inr (fun hr => by simp [mkAnimatedPacket] at hr)
            · exact Or.inr (fun _ => hpath ▸ nodup_snoc hpn hnp)
          · intro pa hpa
            rcases (forwardLoop_new _ _ _ _).2 pa hpa with hold | ⟨nid, hpath, hnp⟩
            · exact Or.inl hold
            · exact Or.inr (hpath ▸ nodup_snoc hpn hnp)
      · -- no better path
        split
        · exact ⟨fun q hq => Or.inl hq, fun pa hpa => Or.inl hpa⟩
        · constructor
          · intro q hq
            rcases (forwardLoop_new _ _ _ _).1 q hq with hold |
              ⟨nid, ht, hqty, hpath, hnp, hns⟩
            · exact Or.inl hold
            · exact Or.inr (fun _ => hpath ▸ nodup_snoc hpn hnp)
          · intro pa hpa
            rcases (forwardLoop_new _ _ _ _).2 pa hpa with hold | ⟨nid, hpath, hnp⟩
            · exact Or.inl hold
            · exact Or.inr (hpath ▸ nodup_snoc hpn hnp)
    · -- not at the destination
      constructor
      · intro q hq
        rcases (forwardLoop_new _ _ _ _).1 q hq with hold |
          ⟨nid, ht, hqty, hpath, hnp, hns⟩
        · exact Or.inl hold
        · exact Or.inr (fun _ => hpath ▸ nodup_snoc hpn hnp)
      · intro pa hpa
        rcases (forwardLoop_new _ _ _ _).2 pa hpa with hold | ⟨nid, hpath, hnp⟩
        · exact Or.inl hold
        · exact Or.inr (hpath ▸ nodup_snoc hpn hnp)
  · -- RREP
    dsimp only
    split
    · constructor
      · intro q hq
        rcases List.mem_append.1 hq with h | h
        · exact Or.inl h
        · simp only [List.mem_singleton] at h
          subst h
          exact Or.inr (fun hr => by simp [mkAnimatedPacket] at hr)
      · intro pa hpa
        exact Or.inl hpa
    · exact ⟨fun q hq => Or.inl hq, fun pa hpa => Or.inl hpa⟩
  · -- DATA
    dsimp only
    split
    · exact ⟨fun q hq => Or.inl hq, fun pa hpa => Or.inl hpa⟩
    · exact ⟨fun q hq => Or.inl hq, fun pa hpa => Or.inl hpa⟩
  · -- RERR
    dsimp only
    split
    · constructor
      · intro q hq
        rcases (flooding_queue_seed st).1 q hq with hold |
          ⟨src, nid, hsrc, hmem, hqty, hpath, ht⟩
        · exact Or.inl hold
        · exact Or.inr (fun _ => hpath ▸ seed_path_nodup hNS hmem)
      · intro pa hpa
        rcases (flooding_queue_seed st).2 pa hpa with hold | ⟨src, nid, hsrc, hmem, hpath⟩
        · exact Or.inl hold
        · exact Or.inr (hpath ▸ seed_path_nodup hNS hmem)
    · exact ⟨fun q hq => Or.inl hq, fun pa hpa => Or.inl hpa⟩

/-! Lemmas about the tick driver. -/

theorem update_fst_path (p : AnimatedPacket) (d m : ℚ) :
    (p.update d m).1.path = p.path := by
  unfold AnimatedPacket.update
  split
  · rfl
  · dsimp only
    split
    · split <;> rfl
    · rfl

theorem update_fst_ptype (p : AnimatedPacket) (d m : ℚ) :
    (p.update d m).1.ptype = p.ptype := by
  unfold AnimatedPacket.update
  split
  · rfl
  · dsimp only
    split
    · split <;> rfl
    · rfl

theorem refillAux_mem (q a : List AnimatedPacket) :
    (∀ p, p ∈ (refillAux q a).1 → p ∈ q) ∧
    (∀ p, p ∈ (refillAux q a).2 → p ∈ q ∨ p ∈ a) := by
  induction q generalizing a with
  | nil =>
    exact ⟨fun p hp => absurd hp (List.not_mem_nil p), fun p hp => Or.inr hp⟩
  | cons x qs ih =>
    unfold refillAux
    split
    · constructor
      · intro p hp
        exact List.mem_cons_of_mem x ((ih (a ++ [x])).1 p hp)
      · intro p hp
        rcases (ih (a ++ [x])).2 p hp with h | h
        · exact Or.inl (List.mem_cons_of_mem x h)
        · rcases List.mem_append.1 h with h | h
          · exact Or.inr h
          · simp only [List.mem_singleton] at h
            exact Or.inl (h ▸ List.mem_cons_self x qs)
    · exact ⟨fun p hp => hp, fun p hp => Or.inr hp⟩

theorem refillAux_len (q a : List AnimatedPacket) (h : a.length ≤ 5) :
    (refillAux q a).2.length ≤ 5 := by
  induction q generalizing a with
  | nil => exact h
  | cons x qs ih =>
    unfold refillAux
    split
    · rename_i hlt
      refine ih (a ++ [x]) ?_
      simp only [List.length_append, List.length_singleton]
      exact hlt
    · exact h

theorem processList_active (ps : List AnimatedPacket) (st : AODVSimulator) :
    (processList ps st).active_packets = st.active_packets := by
  induction ps generalizing st with
  | nil => rfl
  | cons p ps ih =>
    unfold processList at ih ⊢
    simp only [List.foldl_cons]
    rw [ih]
    exact (process_core p st).1

theorem processList_best (ps : List AnimatedPacket) (st : AODVSimulator) :
    (processList ps st).best_path_hop_count ≤ st.best_path_hop_count := by
  induction ps generalizing st with
  | nil => exact le_refl _
  | cons p ps ih =>
    unfold processList at ih ⊢
    simp only [List.foldl_cons]
    refine le_trans (ih (process_packet_completion p st)) ?_
    rcases (process_core p st).2.2.2.1 with h | h
    · exact le_of_eq h
    · exact le_of_lt h

theorem processList_nbrs (ps : List AnimatedPacket) (st : AODVSimulator) :
    ∀ j, (nodeAt (processList ps st).nodes j).neighbors =
      (nodeAt st.nodes j).neighbors := by
  induction ps generalizing st with
  | nil => exact fun j => rfl
  | cons p ps ih =>
    unfold processList at ih ⊢
    simp only [List.foldl_cons]
    intro j
    rw [ih (process_packet_completion p st) j]
    exact (process_core p st).2.2.2.2.2.1 j

theorem processList_nodup (ps : List AnimatedPacket) (st : AODVSimulator)
    (hNS : NoSelfNbr st.nodes)
    (hps : ∀ p ∈ ps, p.ptype = PacketType.RREQ → p.path.Nodup)
    (hq : ∀ q ∈ st.packet_queue, q.ptype = PacketType.RREQ → q.path.Nodup)
    (hd : ∀ pa ∈ st.discovered_paths, List.Nodup pa) :
    (∀ q ∈ (processList ps st).packet_queue,
       q.ptype = PacketType.RREQ → q.path.Nodup) ∧
    (∀ pa ∈ (processList ps st).discovered_paths, List.Nodup pa) ∧
    NoSelfNbr (processList ps st).nodes := by
  induction ps generalizing st with
  | nil => exact ⟨hq, hd, hNS⟩
  | cons p ps ih =>
    unfold processList at ih ⊢
    simp only [List.foldl_cons]
    have hstep := process_queue_nodup p st hNS (hps p (List.mem_cons_self p ps))
    refine ih (process_packet_completion p st) ?_ ?_ ?_ ?_
    · exact noSelfNbr_of_eq hNS ((process_core p st).2.2.2.2.2.1)
    · exact fun r hr => hps r (List.mem_cons_of_mem p hr)
    · intro q hqq hqty
      rcases hstep.1 q hqq with h | h
      · exact hq q h hqty
      · exact h hqty
    · intro pa hpa
      rcases hstep.2 pa hpa with h | h
      · exact hd pa h
      · exact h

theorem finalize_active (st : AODVSimulator) :
    (finalize st).active_packets = st.active_packets := by
  unfold finalize
  split
  · split <;> rfl
  · rfl

theorem finalize_best (st : AODVSimulator) :
    (finalize st).best_path_hop_count = st.best_path_hop_count := by
  unfold finalize
  split
  · split <;> rfl
  · rfl

theorem finalize_nodes (st : AODVSimulator) : (finalize st).nodes = st.nodes := by
  unfold finalize
  split
  · split <;> rfl
  · rfl

theorem finalize_discovered (st : AODVSimulator) :
    (finalize st).discovered_paths = st.discovered_paths := by
  unfold finalize
  split
  · split <;> rfl
  · rfl

theorem finalize_queue (st : AODVSimulator) :
    ∀ q ∈ (finalize st).packet_queue,
      q ∈ st.packet_queue ∨ q.ptype = PacketType.DATA := by
  unfold finalize
  split
  · split
    · intro q hq
      rcases List.mem_append.1 hq with h | h
      · exact Or.inl h
      · simp only [List.mem_singleton] at h
        subst h
        exact Or.inr rfl
    · exact fun q hq => Or.inl hq
  · exact fun q hq => Or.inl hq

theorem tickCore_active_len (tickNodes : List Node → List Node) (d : ℚ)
    (st : AODVSimulator) (h : st.active_packets.length ≤ 5) :
    (tickCore tickNodes d st).active_packets.length ≤ 5 := by
  unfold tickCore refillState
  dsimp only
  split <;>
  · refine refillAux_len _ _ ?_
    rw [processList_active]
    dsimp only
    rw [List.length_map]
    refine le_trans (List.length_filter_le _ _) ?_
    rw [List.length_map]
    exact h

theorem tickCore_best (tickNodes : List Node → List Node) (d : ℚ)
    (st : AODVSimulator) :
    (tickCore tickNodes d st).best_path_hop_count ≤ st.best_path_hop_count := by
  unfold tickCore refillState
  dsimp only
  split <;> exact processList_best _ _

theorem update_best_le (tickNodes : List Node → List Node) (d : ℚ)
    (st : AODVSimulator) :
    (AODVSimulator.update tickNodes d st).best_path_hop_count ≤
      st.best_path_hop_count := by
  unfold AODVSimulator.update
  split
  · rw [finalize_best]
    exact tickCore_best tickNodes d st
  · exact le_refl _

theorem update_active_len (tickNodes : List Node → List Node) (d : ℚ)
    (st : AODVSimulator) (h : st.active_packets.length ≤ 5) :
    (AODVSimulator.update tickNodes d st).active_packets.length ≤ 5 := by
  unfold AODVSimulator.update
  split
  · rw [finalize_active]
    exact tickCore_active_len tickNodes d st h
  · exact h

theorem mem_stepped {l : List AnimatedPacket} {d m : ℚ}
    (f : AnimatedPacket × Bool → Bool) {q : AnimatedPacket}
    (hq : q ∈ ((l.map (fun p => p.update d m)).filter f).map (fun r => r.1)) :
    ∃ p ∈ l, q = (p.update d m).1 := by
  rcases List.mem_map.1 hq with ⟨r, hr, hq1⟩
  rcases List.mem_filter.1 hr with ⟨hr2, _⟩
  rcases List.mem_map.1 hr2 with ⟨p, hp, hp1⟩
  exact ⟨p, hp, by rw [← hq1, ← hp1]⟩

theorem refillState_inv (s : AODVSimulator)
    (hA : ∀ q ∈ s.active_packets, q.ptype = PacketType.RREQ → q.path.Nodup)
    (hQ : ∀ q ∈ s.packet_queue, q.ptype = PacketType.RREQ → q.path.Nodup)
    (hd : ∀ pa ∈ s.discovered_paths, List.Nodup pa)
    (hNS : NoSelfNbr s.nodes) :
    RreqPathsNodup (refillState s) ∧ NoSelfNbr (refillState s).nodes := by
  unfold refillState RreqPathsNodup
  dsimp only
  refine ⟨⟨?_, hd⟩, hNS⟩
  intro q hq
  rcases List.mem_append.1 hq with h | h
  · rcases (refillAux_mem s.packet_queue s.active_packets).2 q h with h2 | h2
    · exact hQ q h2
    · exact hA q h2
  · exact hQ q ((refillAux_mem s.packet_queue s.active_packets).1 q h)

theorem tickStep_inv (d : ℚ) (s0 : AODVSimulator)
    (hA : ∀ q ∈ s0.active_packets, q.ptype = PacketType.RREQ → q.path.Nodup)
    (hQ : ∀ q ∈ s0.packet_queue, q.ptype = PacketType.RREQ → q.path.Nodup)
    (hd : ∀ pa ∈ s0.discovered_paths, List.Nodup pa)
    (hNS : NoSelfNbr s0.nodes) :
    RreqPathsNodup (refillState (processList
      (((s0.active_packets.map (fun p => p.update d s0.animation_speed)).filter
        (fun r => r.2)).map (fun r => r.1))
      { s0 with active_packets :=
        ((s0.active_packets.map (fun p => p.update d s0.animation_speed)).filter
          (fun r => !r.2)).map (fun r => r.1) })) ∧
    NoSelfNbr (refillState (processList
      (((s0.active_packets.map (fun p => p.update d s0.animation_speed)).filter
        (fun r => r.2)).map (fun r => r.1))
      { s0 with active_packets :=
        ((s0.active_packets.map (fun p => p.update d s0.animation_speed)).filter
          (fun r => !r.2)).map (fun r => r.1) })).nodes := by
  have hstep : ∀ q : AnimatedPacket, (∃ p ∈ s0.active_packets,
      q = (p.update d s0.animation_speed).1) →
      q.ptype = PacketType.RREQ → q.path.Nodup := by
    rintro q ⟨p, hp, rfl⟩ hty
    rw [update_fst_ptype] at hty
    rw [update_fst_path]
    exact hA p hp hty
  have hPL := processList_nodup
    (((s0.active_packets.map (fun p => p.update d s0.animation_speed)).filter
      (fun r => r.2)).map (fun r => r.1))
    { s0 with active_packets :=
      ((s0.active_packets.map (fun p => p.update d s0.animation_speed)).filter
        (fun r => !r.2)).map (fun r => r.1) }
    hNS
    (fun p hp => hstep p (mem_stepped _ hp))
    hQ hd
  refine refillState_inv _ ?_ hPL.1 hPL.2.1 hPL.2.2
  intro q hq
  rw [processList_active] at hq
  exact hstep q (mem_stepped _ hq)

theorem tickCore_inv (tickNodes : List Node → List Node)
    (hT : ∀ ns, NoSelfNbr ns → NoSelfNbr (tickNodes ns)) (d : ℚ)
    (st : AODVSimulator) (hNS : NoSelfNbr st.nodes) (hinv : RreqPathsNodup st) :
    RreqPathsNodup (tickCore tickNodes d st) ∧
    NoSelfNbr (tickCore tickNodes d st).nodes := by
  have hA : ∀ q ∈ st.active_packets, q.ptype = PacketType.RREQ → q.path.Nodup :=
    fun q hq => hinv.1 q (List.mem_append_left _ hq)
  have hQ : ∀ q ∈ st.packet_queue, q.ptype = PacketType.RREQ → q.path.Nodup :=
    fun q hq => hinv.1 q (List.mem_append_right _ hq)
  unfold tickCore
  dsimp only
  split
  · exact tickStep_inv d { st with nodes := tickNodes st.nodes } hA hQ hinv.2
      (hT st.nodes hNS)
  · exact tickStep_inv d st hA hQ hinv.2 hNS

theorem nodeAt_map_clear (ns : List Node) (j : ℕ) :
    (nodeAt (ns.map (fun n => { n with rreq_seen := [] })) j).neighbors =
      (nodeAt ns j).neighbors := by
  unfold nodeAt
  rw [List.getD_eq_getElem?_getD, List.getD_eq_getElem?_getD, List.getElem?_map]
  cases ns[j]? <;> rfl

theorem update_inv (tickNodes : List Node → List Node)
    (hT : ∀ ns, NoSelfNbr ns → NoSelfNbr (tickNodes ns)) (d : ℚ)
    (st : AODVSimulator) (hNS : NoSelfNbr st.nodes) (hinv : RreqPathsNodup st) :
    RreqPathsNodup (AODVSimulator.update tickNodes d st) ∧
    NoSelfNbr (AODVSimulator.update tickNodes d st).nodes := by
  unfold AODVSimulator.update
  split
  · have h := tickCore_inv tickNodes hT d st hNS hinv
    constructor
    · constructor
      · intro q hq
        rcases List.mem_append.1 hq with hqa | hqq
        · rw [finalize_active] at hqa
          exact h.1.1 q (List.mem_append_left _ hqa)
        · rcases finalize_queue _ q hqq with h2 | h2
          · exact h.1.1 q (List.mem_append_right _ h2)
          · intro hty
            simp [hty] at h2
      · rw [finalize_discovered]
        exact h.1.2
    · rw [finalize_nodes]
      exact h.2
  · exact ⟨hinv, hNS⟩

theorem start_inv (st : AODVSimulator) (hNS : NoSelfNbr st.nodes)
    (hinv : RreqPathsNodup st) :
    RreqPathsNodup (start_simulation st) ∧
    NoSelfNbr (start_simulation st).nodes := by
  unfold start_simulation
  split
  · exact ⟨hinv, hNS⟩
  · set R : AODVSimulator :=
      { reset_simulation st with simulation_running := true } with hR
    have hNR : NoSelfNbr R.nodes :=
      noSelfNbr_of_eq hNS (fun j => nodeAt_map_clear st.nodes j)
    constructor
    · constructor
      · intro q hq
        rcases List.mem_append.1 hq with hqa | hqq
        · rw [pc_active (start_rreq_flooding_core R)] at hqa
          exact absurd hqa (List.not_mem_nil q)
        · rcases (flooding_queue_seed R).1 q hqq with hold |
            ⟨src, nid, hsrc, hmem, hqty, hpath, ht⟩
          · exact absurd hold (List.not_mem_nil q)
          · exact fun hty => hpath ▸ seed_path_nodup hNR hmem
      · intro pa hpa
        rcases (flooding_queue_seed R).2 pa hpa with hold |
          ⟨src, nid, hsrc, hmem, hpath⟩
        · exact absurd hold (List.not_mem_nil pa)
        · exact hpath ▸ seed_path_nodup hNR hmem
    · exact noSelfNbr_of_eq hNR (pc_nbrs (start_rreq_flooding_core R))

theorem rerr_inv (i : ℕ) (st : AODVSimulator) (hNS : NoSelfNbr st.nodes)
    (hinv : RreqPathsNodup st) :
    RreqPathsNodup (simulate_route_error i st) ∧
    NoSelfNbr (simulate_route_error i st).nodes := by
  unfold simulate_route_error
  split
  · exact ⟨hinv, hNS⟩
  · constructor
    · constructor
      · intro q hq
        rcases List.mem_append.1 hq with hqa | hqq
        · exact hinv.1 q (List.mem_append_left _ hqa)
        · rcases List.mem_append.1 hqq with h2 | h2
          · exact hinv.1 q (List.mem_append_right _ h2)
          · simp only [List.mem_singleton] at h2
            subst h2
            intro hty
            simp [mkAnimatedPacket] at hty
      · exact hinv.2
    · exact hNS

theorem reset_inv (st : AODVSimulator) (hNS : NoSelfNbr st.nodes) :
    RreqPathsNodup (reset_simulation st) ∧
    NoSelfNbr (reset_simulation st).nodes := by
  constructor
  · constructor
    · intro q hq
      rcases List.mem_append.1 hq with h | h
      · exact absurd h (List.not_mem_nil q)
      · exact absurd h (List.not_mem_nil q)
    · intro pa hpa
      exact absurd hpa (List.not_mem_nil pa)
  · exact noSelfNbr_of_eq hNS (fun j => nodeAt_map_clear st.nodes j)

theorem cmd_inv (tickNodes : List Node → List Node)
    (hT : ∀ ns, NoSelfNbr ns → NoSelfNbr (tickNodes ns)) (c : Cmd)
    (st : AODVSimulator) (hNS : NoSelfNbr st.nodes) (hinv : RreqPathsNodup st) :
    RreqPathsNodup (execCmd tickNodes c st) ∧
    NoSelfNbr (execCmd tickNodes c st).nodes := by
  cases c with
  | start => exact start_inv st hNS hinv
  | tick d => exact update_inv tickNodes hT d st hNS hinv
  | rerr i => exact rerr_inv i st hNS hinv
  | reset => exact reset_inv st hNS

/-! Claim theorems. -/

/-- Claim C4, amended.  For `AnimatedPacket.update`: each call on a live
packet adds `base_speed * multiplier * delta` to the progress; on reaching
1.0 the packet steps to the next hop index and resets progress; the call
returns `true` ONLY when the arrived hop is the path's last node (the claim
said true once per hop arrival; intermediate hop arrivals return `false`):
over any sequence of calls the number of `true` returns is 1 when the
packet ends completed and 0 otherwise, completion pins progress at 1.0, and
a completed packet is never advanced again. -/
theorem claim_C4_thm (m d : ℚ) (ds : List ℚ) (p : AnimatedPacket) :
    (p.completed = true → AnimatedPacket.run m ds p = (p, 0)) ∧
    (p.completed = false →
      (AnimatedPacket.run m ds p).2 =
        if (AnimatedPacket.run m ds p).1.completed then 1 else 0) ∧
    (p.completed = false → p.progress + p.base_speed * m * d < 1 →
      p.update d m =
        ({ p with progress := p.progress + p.base_speed * m * d }, false)) ∧
    (p.completed = false → 1 ≤ p.progress + p.base_speed * m * d →
      p.current_node_index + 1 < p.path.length - 1 →
      p.update d m =
        ({ p with
            current_node_index := p.current_node_index + 1
            progress := 0 }, false)) ∧
    (p.completed = false → 1 ≤ p.progress + p.base_speed * m * d →
      p.path.length - 1 ≤ p.current_node_index + 1 →
      p.update d m =
        ({ p with
            current_node_index := p.current_node_index + 1
            progress := 1
            completed := true }, true)) := by
  refine ⟨fun hc => run_of_completed m ds p hc, fun hc => run_count m ds p hc,
    fun hc hlt => ?_, fun hc hge hlt => ?_, fun hc hge hle => ?_⟩
  · simp [AnimatedPacket.update, hc, not_le.2 hlt]
  · simp [AnimatedPacket.update, hc, hge, Nat.not_le.2 hlt]
  · simp [AnimatedPacket.update, hc, hge, hle]

/-- Witness for C4: a three-node packet at speed 4/5 with multiplier 1 and
two time deltas of 2 completes at the second call, and the number of `true`
returns over the two calls is exactly 1. -/
theorem claim_C4_witness :
    samplePacket3.completed = false ∧
    (AnimatedPacket.run 1 [2, 2] samplePacket3).2 =
      (if (AnimatedPacket.run 1 [2, 2] samplePacket3).1.completed then 1 else 0) ∧
    (AnimatedPacket.run 1 [2, 2] samplePacket3).1.completed = true ∧
    (AnimatedPacket.run 1 [2, 2] samplePacket3).2 = 1 :=
  ⟨rfl, (claim_C4_thm 1 2 [2, 2] samplePacket3).2.1 rfl,
    by norm_num [AnimatedPacket.run, AnimatedPacket.update, samplePacket3,
      mkAnimatedPacket],
    by norm_num [AnimatedPacket.run, AnimatedPacket.update, samplePacket3,
      mkAnimatedPacket]⟩

/-- Counterexample for C4 as stated: the claim says `advance` returns true
exactly once per hop arrival, but on the packet with path `[0, 1, 2]` the
arrival at the intermediate hop (the index advances from 0 to 1) returns
`false`; only the final arrival returns `true`. -/
theorem claim_C4_cex :
    (samplePacket3.update 2 1).1.current_node_index =
      samplePacket3.current_node_index + 1 ∧
    (samplePacket3.update 2 1).2 = false := by
  constructor
  · norm_num [AnimatedPacket.update, samplePacket3, mkAnimatedPacket]
  · norm_num [AnimatedPacket.update, samplePacket3, mkAnimatedPacket]

/-- Claim C9: `start_simulation` is a no-op, returning the state unchanged,
when the source or the destination is unset. -/
theorem claim_C9_thm (st : AODVSimulator)
    (h : st.source = none ∨ st.destination = none) :
    start_simulation st = st := by
  unfold start_simulation
  rw [if_pos h]

/-- Witness for C9: a concrete state with no source selected is returned
unchanged. -/
theorem claim_C9_witness :
    sampleNoSource.source = none ∧
    start_simulation sampleNoSource = sampleNoSource :=
  ⟨rfl, claim_C9_thm sampleNoSource (Or.inl rfl)⟩

/-- Claim C6: within a session the best-path hop count never increases:
processing a completed packet either keeps it or strictly decreases it, a
tick never increases it, `simulate_route_error` and `start_rreq_flooding`
leave it unchanged (re-flooding after a route error does NOT reset it), and
only a session reset returns it to infinity. -/
theorem claim_C6_thm (tickNodes : List Node → List Node) (d : ℚ) (i : ℕ)
    (p : AnimatedPacket) (st : AODVSimulator) :
    ((process_packet_completion p st).best_path_hop_count =
        st.best_path_hop_count ∨
      (process_packet_completion p st).best_path_hop_count <
        st.best_path_hop_count) ∧
    (AODVSimulator.update tickNodes d st).best_path_hop_count ≤
      st.best_path_hop_count ∧
    (simulate_route_error i st).best_path_hop_count = st.best_path_hop_count ∧
    (start_rreq_flooding st).best_path_hop_count = st.best_path_hop_count ∧
    (reset_simulation st).best_path_hop_count = ⊤ ∧
    ((start_simulation st).best_path_hop_count = ⊤ ∨ start_simulation st = st) := by
  refine ⟨(process_core p st).2.2.2.1, update_best_le tickNodes d st, ?_,
    pc_best (start_rreq_flooding_core st), rfl, ?_⟩
  · unfold simulate_route_error
    split <;> rfl
  · unfold start_simulation
    split
    · exact Or.inr rfl
    · exact Or.inl ((pc_best (start_rreq_flooding_core _)).trans rfl)

/-- Claim C7: the set of simultaneously animating packets never exceeds 5:
every engine operation preserves the bound, the tick driver in particular
(completed packets are removed first, then the refill loop only runs while
the active set is below 5). -/
theorem claim_C7_thm (tickNodes : List Node → List Node) (d : ℚ) (i : ℕ)
    (p : AnimatedPacket) (st : AODVSimulator)
    (h : st.active_packets.length ≤ 5) :
    (AODVSimulator.update tickNodes d st).active_packets.length ≤ 5 ∧
    (process_packet_completion p st).active_packets.length ≤ 5 ∧
    (start_simulation st).active_packets.length ≤ 5 ∧
    (reset_simulation st).active_packets.length ≤ 5 ∧
    (simulate_route_error i st).active_packets.length ≤ 5 := by
  refine ⟨update_active_len tickNodes d st h, ?_, ?_, ?_, ?_⟩
  · rw [(process_core p st).1]
    exact h
  · unfold start_simulation
    split
    · exact h
    · rw [pc_active (start_rreq_flooding_core _)]
      simp [reset_simulation]
  · simp [reset_simulation]
  · unfold simulate_route_error
    split
    · exact h
    · exact h

/-- Witness for C7 at the triangle topology state (empty active set). -/
theorem claim_C7_witness :
    (AODVSimulator.update id 1 sampleTriangle).active_packets.length ≤ 5 ∧
    (process_packet_completion sampleSeed01 sampleTriangle).active_packets.length ≤ 5 ∧
    (start_simulation sampleTriangle).active_packets.length ≤ 5 ∧
    (reset_simulation sampleTriangle).active_packets.length ≤ 5 ∧
    (simulate_route_error 1 sampleTriangle).active_packets.length ≤ 5 :=
  claim_C7_thm id 1 1 sampleSeed01 sampleTriangle (by decide)

/-- Claim C1, code evaluation at the failing input.  With best path
`[0, 3, 5, 7]` from source 0 to destination 7, `simulate_route_error` with
break index 1 (resp. 2) does enqueue a ROUTE_ERROR packet whose two-node
path is `[0, 3]` (resp. `[3, 5]`), as the claim says; but that packet's
last node is 3 (resp. 5), never the source 0, so when its completion is
processed the engine state is left COMPLETELY UNCHANGED — no new
discovery id, no seed packets, no flooding session — contradicting the
claimed re-flood on RERR completion (the re-flood branch of
`process_packet_completion` fires only when the RERR's last node equals the
source, which a packet `[path[i-1], path[i]]` with `i ≥ 1` never reaches). -/
theorem claim_C1_code_eval :
    (simulate_route_error 1 sampleRouteErrorState).packet_queue =
      sampleRouteErrorState.packet_queue ++
        [mkAnimatedPacket 20 PacketType.RERR [0, 3] (4/5) (some 0) (some 3)] ∧
    (simulate_route_error 2 sampleRouteErrorState).packet_queue =
      sampleRouteErrorState.packet_queue ++
        [mkAnimatedPacket 20 PacketType.RERR [3, 5] (4/5) (some 3) (some 5)] ∧
    sampleRouteErrorState.source = some 0 ∧
    sampleRerrPacket1.path.getLastD 0 = 3 ∧
    sampleRerrPacket2.path.getLastD 0 = 5 ∧
    process_packet_completion sampleRerrPacket1
        { simulate_route_error 1 sampleRouteErrorState with packet_queue := [] } =
      { simulate_route_error 1 sampleRouteErrorState with packet_queue := [] } ∧
    process_packet_completion sampleRerrPacket2
        { simulate_route_error 2 sampleRouteErrorState with packet_queue := [] } =
      { simulate_route_error 2 sampleRouteErrorState with packet_queue := [] } :=
  ⟨rfl, rfl, rfl, rfl, rfl, rfl, rfl⟩

/-- Counterexample for C2 as stated: `sampleSatisfied` is a session state
(reached by the flood on topology 0-1, 0-2, 1-3, 2-4, 4-5 with source 0 and
destination 3) whose satisfied flag is set because the best hop count is
2 ≤ 2, yet processing the subsequently completed in-flight RREQ `[0, 2, 4]`
spawns a brand-new ROUTE_REQUEST toward node 5: the forwarding loop never
checks the satisfied flag for packets that complete away from the
destination. -/
theorem claim_C2_cex :
    sampleSatisfied.route_established = true ∧
    sampleSatisfied.best_path_hop_count ≤ 2 ∧
    sampleRreq024.ptype = PacketType.RREQ ∧
    sampleRreq024.path.getLastD 0 ≠ 3 ∧
    sampleSatisfied.destination = some 3 ∧
    (process_packet_completion sampleRreq024 sampleSatisfied).packet_queue =
      sampleSatisfied.packet_queue ++
        [mkAnimatedPacket 6 PacketType.RREQ [0, 2, 4, 5] (4/5) (some 4) (some 5)] :=
  ⟨rfl, le_refl _, rfl, by decide, rfl, rfl⟩

/-- Claim C2, amended.  Once the satisfaction condition holds (at least 5
discovered paths or best hop count at most 2), an RREQ completing AT THE
DESTINATION spawns no new ROUTE_REQUEST: the early return fires, so the
queue is unchanged or grows only by one ROUTE_REPLY; the active (in-flight)
set is untouched, so packets already in flight still drain.  RREQs that
complete at other nodes still run the forwarding rule unconditionally — see
the counterexample — which is what the amendment concedes relative to the
original claim. -/
theorem claim_C2_thm (st : AODVSimulator) (p : AnimatedPacket)
    (hsat : 5 ≤ st.all_discovered_paths_to_dest.length ∨
      st.best_path_hop_count ≤ 2)
    (hty : p.ptype = PacketType.RREQ)
    (hdest : some (p.path.getLastD 0) = st.destination) :
    ((process_packet_completion p st).packet_queue = st.packet_queue ∨
      (process_packet_completion p st).packet_queue = st.packet_queue ++
        [mkAnimatedPacket st.packet_counter PacketType.RREP p.path.reverse (4/5)
          none none]) ∧
    (process_packet_completion p st).active_packets = st.active_packets := by
  refine ⟨?_, (process_core p st).1⟩
  unfold process_packet_completion
  rw [hty]
  dsimp only
  rw [if_pos hdest]
  split
  · rename_i hlt
    split
    · exact Or.inr rfl
    · rename_i hns
      exfalso
      apply hns
      rcases hsat with h5 | h2
      · left
        show 5 ≤ (st.all_discovered_paths_to_dest ++ [p.path]).length
        rw [List.length_append, List.length_singleton]
        exact Nat.le_succ_of_le h5
      · right
        exact le_of_lt (lt_of_lt_of_le hlt h2)
  · split
    · exact Or.inl rfl
    · rename_i hns
      exfalso
      apply hns
      rcases hsat with h5 | h2
      · left
        show 5 ≤ (st.all_discovered_paths_to_dest ++ [p.path]).length
        rw [List.length_append, List.length_singleton]
        exact Nat.le_succ_of_le h5
      · right
        exact h2

/-- Witness for C2 (amended) at the reachable satisfied state: an RREQ
completing at the destination leaves the queue unchanged or adds only an
RREP, and the active set is untouched. -/
theorem claim_C2_witness :
    ((process_packet_completion sampleRreqAtDest sampleSatisfied).packet_queue =
        sampleSatisfied.packet_queue ∨
      (process_packet_completion sampleRreqAtDest sampleSatisfied).packet_queue =
        sampleSatisfied.packet_queue ++
          [mkAnimatedPacket sampleSatisfied.packet_counter PacketType.RREP
            sampleRreqAtDest.path.reverse (4/5) none none]) ∧
    (process_packet_completion sampleRreqAtDest sampleSatisfied).active_packets =
      sampleSatisfied.active_packets :=
  claim_C2_thm sampleSatisfied sampleRreqAtDest (Or.inr (le_refl _)) rfl rfl

/-- Counterexample for C3 as stated: in the reachable first-tick state of
the triangle topology (source 0, flood id 0), node 1 forwards the flood —
processing the completed seed `[0, 1]` spawns the RREQ `[0, 1, 2]` — yet
node 1's forwarded-record does NOT contain the key `(0, 0)` afterwards: the
code marks the RECEIVING neighbor at spawn time and marks the source for
seed packets, never the forwarding node itself. -/
theorem claim_C3_cex :
    (process_packet_completion sampleSeed01 sampleTriangleStarted).packet_queue =
      [mkAnimatedPacket 3 PacketType.RREQ [0, 1, 2] (4/5) (some 1) (some 2)] ∧
    sampleTriangleStarted.source = some 0 ∧
    sampleTriangleStarted.rreq_broadcast_id = 0 ∧
    (some 0, 0) ∉
      (nodeAt (process_packet_completion sampleSeed01 sampleTriangleStarted).nodes
        1).rreq_seen :=
  ⟨rfl, rfl, rfl, by decide⟩

/-- Claim C3, amended.  The duplicate-suppression record is kept on the
RECEIVING side: when an RREQ completes at a node, (1) if a node `m` already
has the `(source, discoveryId)` key in its record, no new packet of this
flood is spawned toward `m` (every queue addition is either the RREP, whose
to-node is none, or a forward to a node whose record lacked the key); and
(2) every newly spawned packet toward `m` puts the key into `m`'s record.
Together these give "each node RECEIVES a forwarded flood at most once" —
rather than the claimed "forwards at most once with its own record marked",
which the counterexample refutes for seed recipients. -/
theorem claim_C3_thm (st : AODVSimulator) (p : AnimatedPacket) (m : ℕ)
    (hty : p.ptype = PacketType.RREQ)
    (hv : ∀ nid ∈ (nodeAt st.nodes (p.path.getLastD 0)).neighbors,
      nid < st.nodes.length) :
    ((st.source, st.rreq_broadcast_id) ∈ (nodeAt st.nodes m).rreq_seen →
      ∀ q ∈ (process_packet_completion p st).packet_queue,
        q ∈ st.packet_queue ∨ q.to_node ≠ some m) ∧
    (∀ q ∈ (process_packet_completion p st).packet_queue,
      q ∉ st.packet_queue → q.to_node = some m →
        (st.source, st.rreq_broadcast_id) ∈
          (nodeAt (process_packet_completion p st).nodes m).rreq_seen) := by
  unfold process_packet_completion
  rw [hty]
  dsimp only
  split
  · -- at the destination
    split
    · -- better path: the RREP is queued before the satisfaction check
      split
      · -- early return
        constructor
        · intro hmem q hq
          rcases List.mem_append.1 hq with h | h
          · exact Or.inl h
          · simp only [List.mem_singleton] at h
            subst h
            exact Or.inr (by simp [mkAnimatedPacket])
        · intro q hq hnq ht
          rcases List.mem_append.1 hq with h | h
          · exact absurd h hnq
          · simp only [List.mem_singleton] at h
            subst h
            simp [mkAnimatedPacket] at ht
      · -- forwarding loop after the RREP
        constructor
        · intro hmem q hq
          rcases (forwardLoop_new _ _ _ _).1 q hq with hold |
            ⟨nid, ht, _, _, _, hns⟩
          · rcases List.mem_append.1 hold with h | h
            · exact Or.inl h
            · simp only [List.mem_singleton] at h
              subst h
              exact Or.inr (by simp [mkAnimatedPacket])
          · refine Or.inr ?_
            rw [ht]
            intro hcon
            have hnm := Option.some.inj hcon
            subst hnm
            exact hns hmem
        · intro q hq hnq ht
          by_cases hq2 : q ∈ st.packet_queue ++
            [mkAnimatedPacket st.packet_counter PacketType.RREP p.path.reverse
              (4/5) none none]
          · rcases List.mem_append.1 hq2 with h | h
            · exact absurd h hnq
            · simp only [List.mem_singleton] at h
              subst h
              simp [mkAnimatedPacket] at ht
          · refine forwardLoop_marks _ _ _ _ ?_ q hq hq2 m ht
            exact hv
    · -- no better path
      split
      · -- early return, queue untouched
        constructor
        · intro hmem q hq
          exact Or.inl hq
        · intro q hq hnq ht
          exact absurd hq hnq
      · constructor
        · intro hmem q hq
          rcases (forwardLoop_new _ _ _ _).1 q hq with hold |
            ⟨nid, ht, _, _, _, hns⟩
          · exact Or.inl hold
          · refine Or.inr ?_
            rw [ht]
            intro hcon
            have hnm := Option.some.inj hcon
            subst hnm
            exact hns hmem
        · intro q hq hnq ht
          refine forwardLoop_marks _ _ _ _ ?_ q hq hnq m ht
          exact hv
  · -- not at the destination
    constructor
    · intro hmem q hq
      rcases (forwardLoop_new _ _ _ _).1 q hq with hold |
        ⟨nid, ht, _, _, _, hns⟩
      · exact Or.inl hold
      · refine Or.inr ?_
        rw [ht]
        intro hcon
        have hnm := Option.some.inj hcon
        subst hnm
        exact hns hmem
    · intro q hq hnq ht
      refine forwardLoop_marks _ _ _ _ ?_ q hq hnq m ht
      exact hv

/-- Witness for C3 (amended) at the satisfied sample state: node 3 already
holds the flood key, so processing the RREQ completing at node 4 spawns
nothing toward node 3, and every new spawn toward node 3 would mark its
record. -/
theorem claim_C3_witness :
    ((sampleSatisfied.source, sampleSatisfied.rreq_broadcast_id) ∈
        (nodeAt sampleSatisfied.nodes 3).rreq_seen →
      ∀ q ∈ (process_packet_completion sampleRreq024 sampleSatisfied).packet_queue,
        q ∈ sampleSatisfied.packet_queue ∨ q.to_node ≠ some 3) ∧
    (∀ q ∈ (process_packet_completion sampleRreq024 sampleSatisfied).packet_queue,
      q ∉ sampleSatisfied.packet_queue → q.to_node = some 3 →
        (sampleSatisfied.source, sampleSatisfied.rreq_broadcast_id) ∈
          (nodeAt (process_packet_completion sampleRreq024 sampleSatisfied).nodes
            3).rreq_seen) :=
  claim_C3_thm sampleSatisfied sampleRreq024 3 rfl (by decide)

theorem trace_inv (tickNodes : List Node → List Node)
    (hT : ∀ ns, NoSelfNbr ns → NoSelfNbr (tickNodes ns))
    (cs : List Cmd) (st : AODVSimulator)
    (h1 : NoSelfNbr st.nodes) (h2 : RreqPathsNodup st) :
    RreqPathsNodup (execTrace tickNodes cs st) ∧
    NoSelfNbr (execTrace tickNodes cs st).nodes := by
  induction cs generalizing st with
  | nil => exact ⟨h2, h1⟩
  | cons c cs ih =>
    have hstep : execTrace tickNodes (c :: cs) st =
        execTrace tickNodes cs (execCmd tickNodes c st) := rfl
    rw [hstep]
    have h := cmd_inv tickNodes hT c st h1 h2
    exact ih (execCmd tickNodes c st) h.2 h.1

/-- Claim C5: loop-freedom of every ROUTE_REQUEST ever created.  Over any
command trace (start, ticks with any mobility behavior that never makes a
node its own neighbor, route errors, resets) from a well-formed state, every
live RREQ packet has a duplicate-free path, and so does every path in the
`discovered_paths` log — which records the path of every RREQ ever created,
seed or forwarded (a node is only ever appended to a path it does not
already appear in). -/
theorem claim_C5_thm (tickNodes : List Node → List Node)
    (hT : ∀ ns, NoSelfNbr ns → NoSelfNbr (tickNodes ns))
    (cs : List Cmd) (st : AODVSimulator)
    (h1 : NoSelfNbr st.nodes) (h2 : RreqPathsNodup st) :
    (∀ q ∈ (execTrace tickNodes cs st).active_packets ++
        (execTrace tickNodes cs st).packet_queue,
      q.ptype = PacketType.RREQ → q.path.Nodup) ∧
    (∀ pa ∈ (execTrace tickNodes cs st).discovered_paths, List.Nodup pa) :=
  (trace_inv tickNodes hT cs st h1 h2).1

/-- Witness for C5: a full discovery run on the triangle topology (start,
three ticks, then a route-error trigger) keeps every RREQ path and every
recorded discovered path duplicate-free. -/
theorem claim_C5_witness :
    (∀ q ∈ (execTrace id [Cmd.start, Cmd.tick 2, Cmd.tick 2, Cmd.tick 2,
          Cmd.rerr 1] sampleTriangle).active_packets ++
        (execTrace id [Cmd.start, Cmd.tick 2, Cmd.tick 2, Cmd.tick 2,
          Cmd.rerr 1] sampleTriangle).packet_queue,
      q.ptype = PacketType.RREQ → q.path.Nodup) ∧
    (∀ pa ∈ (execTrace id [Cmd.start, Cmd.tick 2, Cmd.tick 2, Cmd.tick 2,
        Cmd.rerr 1] sampleTriangle).discovered_paths, List.Nodup pa) :=
  claim_C5_thm id (fun ns h => h)
    [Cmd.start, Cmd.tick 2, Cmd.tick 2, Cmd.tick 2, Cmd.rerr 1]
    sampleTriangle (by decide)
    ⟨fun q hq => absurd hq (List.not_mem_nil q),
     fun pa hpa => absurd hpa (List.not_mem_nil pa)⟩

/-- Claim C8: when a tick drains both the active set and the queue while the
session is still running and no best path was ever found, the tick
transitions the session to COMPLETE with an empty final path:
`simulation_running` becomes false, `simulation_complete` becomes true, and
the best path stays empty — a normal outcome, not an error. -/
theorem claim_C8_thm (tickNodes : List Node → List Node) (d : ℚ)
    (st : AODVSimulator)
    (hrun : st.simulation_running = true)
    (ha : (tickCore tickNodes d st).active_packets = [])
    (hq : (tickCore tickNodes d st).packet_queue = [])
    (hrun2 : (tickCore tickNodes d st).simulation_running = true)
    (hf : (tickCore tickNodes d st).final_path = []) :
    AODVSimulator.update tickNodes d st =
      { tickCore tickNodes d st with
        simulation_complete := true, simulation_running := false } ∧
    (AODVSimulator.update tickNodes d st).simulation_complete = true ∧
    (AODVSimulator.update tickNodes d st).simulation_running = false ∧
    (AODVSimulator.update tickNodes d st).final_path = [] := by
  have hmain : AODVSimulator.update tickNodes d st =
      { tickCore tickNodes d st with
        simulation_complete := true, simulation_running := false } := by
    unfold AODVSimulator.update
    rw [if_pos hrun]
    unfold finalize
    rw [if_pos ⟨ha, hq, hrun2⟩]
    have hne : ¬(tickCore tickNodes d st).final_path ≠ [] := fun hne => hne hf
    rw [if_neg hne]
  refine ⟨hmain, ?_, ?_, ?_⟩
  · rw [hmain]
  · rw [hmain]
  · rw [hmain]
    exact hf

/-- Witness for C8 at a concrete drained state with no route found. -/
theorem claim_C8_witness :
    AODVSimulator.update id 1 sampleDrainedNoPath =
      { tickCore id 1 sampleDrainedNoPath with
        simulation_complete := true, simulation_running := false } ∧
    (AODVSimulator.update id 1 sampleDrainedNoPath).simulation_complete = true ∧
    (AODVSimulator.update id 1 sampleDrainedNoPath).simulation_running = false ∧
    (AODVSimulator.update id 1 sampleDrainedNoPath).final_path = [] :=
  claim_C8_thm id 1 sampleDrainedNoPath rfl rfl rfl rfl rfl

/-- Claim C10 (implicit): when a tick drains both sets while the session is
running and a non-empty best path exists, the engine does NOT complete the
session; it enqueues one fresh DATA packet along the current best path
(running stays true, the complete flag is untouched), and the complete flag
is set by packet processing only when a DATA packet reaches the
destination — every other packet completion leaves it unchanged. -/
theorem claim_C10_thm (tickNodes : List Node → List Node) (d : ℚ)
    (st st2 : AODVSimulator) (p : AnimatedPacket)
    (hrun : st.simulation_running = true)
    (ha : (tickCore tickNodes d st).active_packets = [])
    (hq : (tickCore tickNodes d st).packet_queue = [])
    (hrun2 : (tickCore tickNodes d st).simulation_running = true)
    (hf : (tickCore tickNodes d st).final_path ≠ []) :
    AODVSimulator.update tickNodes d st =
      send_data_packet (tickCore tickNodes d st) ∧
    (AODVSimulator.update tickNodes d st).packet_queue =
      [mkAnimatedPacket (tickCore tickNodes d st).packet_counter PacketType.DATA
        (tickCore tickNodes d st).final_path (4/5) none none] ∧
    (AODVSimulator.update tickNodes d st).simulation_running = true ∧
    (AODVSimulator.update tickNodes d st).simulation_complete =
      (tickCore tickNodes d st).simulation_complete ∧
    (p.ptype = PacketType.DATA → st2.destination = some (p.path.getLastD 0) →
      (process_packet_completion p st2).simulation_complete = true ∧
      (process_packet_completion p st2).simulation_running = false) ∧
    (¬(p.ptype = PacketType.DATA ∧ some (p.path.getLastD 0) = st2.destination) →
      (process_packet_completion p st2).simulation_complete =
        st2.simulation_complete) := by
  have hmain : AODVSimulator.update tickNodes d st =
      send_data_packet (tickCore tickNodes d st) := by
    unfold AODVSimulator.update
    rw [if_pos hrun]
    unfold finalize
    rw [if_pos ⟨ha, hq, hrun2⟩, if_pos hf]
  refine ⟨hmain, ?_, ?_, ?_, ?_,
    fun h => ((process_core p st2).2.2.2.2.2.2 h).1⟩
  · rw [hmain]
    unfold send_data_packet
    dsimp only
    rw [hq, List.nil_append]
  · rw [hmain]
    show (tickCore tickNodes d st).simulation_running = true
    exact hrun2
  · rw [hmain]
    exact pc_complete (send_data_packet_core _)
  · intro hpt hdest
    unfold process_packet_completion
    rw [hpt]
    dsimp only
    rw [if_pos hdest.symm]
    exact ⟨rfl, rfl⟩

/-- Witness for C10 at a concrete drained state with route `[0, 1]`: the
tick enqueues the DATA packet, and that DATA packet completing at
destination 1 sets the complete flag. -/
theorem claim_C10_witness :
    AODVSimulator.update id 1 sampleDrainedWithPath =
      send_data_packet (tickCore id 1 sampleDrainedWithPath) ∧
    (AODVSimulator.update id 1 sampleDrainedWithPath).packet_queue =
      [mkAnimatedPacket (tickCore id 1 sampleDrainedWithPath).packet_counter
        PacketType.DATA (tickCore id 1 sampleDrainedWithPath).final_path (4/5)
        none none] ∧
    (AODVSimulator.update id 1 sampleDrainedWithPath).simulation_running = true ∧
    (AODVSimulator.update id 1 sampleDrainedWithPath).simulation_complete =
      (tickCore id 1 sampleDrainedWithPath).simulation_complete ∧
    (sampleDataAtDest.ptype = PacketType.DATA →
      sampleDrainedWithPath.destination =
        some (sampleDataAtDest.path.getLastD 0) →
      (process_packet_completion sampleDataAtDest
        sampleDrainedWithPath).simulation_complete = true ∧
      (process_packet_completion sampleDataAtDest
        sampleDrainedWithPath).simulation_running = false) ∧
    (¬(sampleDataAtDest.ptype = PacketType.DATA ∧
        some (sampleDataAtDest.path.getLastD 0) =
          sampleDrainedWithPath.destination) →
      (process_packet_completion sampleDataAtDest
        sampleDrainedWithPath).simulation_complete =
        sampleDrainedWithPath.simulation_complete) :=
  claim_C10_thm id 1 sampleDrainedWithPath sampleDrainedWithPath sampleDataAtDest
    rfl rfl rfl rfl (by decide)
